import Mathlib

/-!
# Verification development for `services/behavebio/behaveBio.go`

A shallow embedding of the behavioural-biometrics client of the SecureAuth
Go SDK: the `Request`/`Response` structures, the `Get`/`Post`/`Put`
executors with their helper wrappers, and the response-signature check
`IsSignatureValid`.

Go strings are byte sequences, so they are modelled as lists of bytes.
Pointers that may be nil are `Option`s, a Go result pair `(T, error)` is a
Lean pair whose second component is `Option GoError`, and a run that
dereferences nil ends in `Outcome.panicked`. Receivers and the client pointer
are taken to be non-nil.

The Go standard-library routines the code calls (`encoding/hex`,
`encoding/base64`, `crypto/sha256`, `crypto/hmac`, `bytes.Buffer`,
`net/http.Header.Get`, `unicode/utf8`, and `encoding/json` for the all-string
`Request`) are modelled by executable definitions that follow the library's
documented behaviour. The methods of the injected `sa.Client` and the JSON
decoding of the float-carrying `Response` are parameters.
-/

namespace Behavebio

/-! ## Bytes and Go strings -/

/-- One byte. -/
abbrev Byte := Fin 256

/-- A Go `string` (equally a `[]byte`): an arbitrary sequence of bytes. -/
abbrev GoString := List Byte

/-- Truncation of a natural number to a byte, as Go's `byte(x)`. -/
def byteOf (n : Nat) : Byte := ⟨n % 256, Nat.mod_lt _ (by decide)⟩

/-- Go's `utf8.AppendRune`: the UTF-8 encoding of a rune; surrogates and
out-of-range values are encoded as U+FFFD. -/
def encodeRune (r : Nat) : GoString :=
  if r ≤ 0x7F then [byteOf r]
  else if r ≤ 0x7FF then [byteOf (0xC0 ||| (r >>> 6)), byteOf (0x80 ||| (r &&& 0x3F))]
  else if 0x10FFFF < r ∨ (0xD800 ≤ r ∧ r ≤ 0xDFFF) then [0xEF, 0xBF, 0xBD]
  else if r ≤ 0xFFFF then
    [byteOf (0xE0 ||| (r >>> 12)), byteOf (0x80 ||| ((r >>> 6) &&& 0x3F)),
     byteOf (0x80 ||| (r &&& 0x3F))]
  else
    [byteOf (0xF0 ||| (r >>> 18)), byteOf (0x80 ||| ((r >>> 12) &&& 0x3F)),
     byteOf (0x80 ||| ((r >>> 6) &&& 0x3F)), byteOf (0x80 ||| (r &&& 0x3F))]

/-- The bytes of a Go string literal written as a Lean string. -/
def str (s : String) : GoString := s.toList.flatMap fun c => encodeRune c.toNat

/-- A Go `error` value; `Option GoError` is the `error` interface, `none`
being nil. -/
structure GoError where
  text : String
deriving DecidableEq, Repr

/-- How a call ends: it returns a value, or it panics (nil dereference). -/
inductive Outcome (α : Type) where
  | returned (v : α)
  | panicked
deriving DecidableEq, Repr

/-! ## `encoding/hex` -/

/-- Go's `reverseHexTable` restricted to its valid entries: the value of a
hexadecimal digit, `none` for any other byte. -/
def fromHexChar (c : Byte) : Option Nat :=
  if 48 ≤ c.val ∧ c.val ≤ 57 then some (c.val - 48)
  else if 97 ≤ c.val ∧ c.val ≤ 102 then some (c.val - 97 + 10)
  else if 65 ≤ c.val ∧ c.val ≤ 70 then some (c.val - 65 + 10)
  else none

/-- Go's `hex.DecodeString`: decodes pairs of hexadecimal digits, in either
letter case; on an invalid byte or an odd length it returns the bytes decoded
before the error together with the error. -/
def hexDecodeString : GoString → GoString × Option GoError
  | [] => ([], none)
  | [p] =>
    match fromHexChar p with
    | none => ([], some ⟨"encoding/hex: invalid byte"⟩)
    | some _ => ([], some ⟨"encoding/hex: odd length hex string"⟩)
  | p :: q :: rest =>
    match fromHexChar p, fromHexChar q with
    | some a, some b =>
      let r := hexDecodeString rest
      (byteOf (a * 16 + b) :: r.1, r.2)
    | _, _ => ([], some ⟨"encoding/hex: invalid byte"⟩)

/-! ## `encoding/base64` -/

/-- The standard base64 alphabet (RFC 4648), as character codes. -/
def encodeStd : List Byte := str "ABCDEFGHIJKLMNOPQRSTUVWXYZabcdefghijklmnopqrstuvwxyz0123456789+/"

/-- The alphabet character for a 6-bit value. -/
def b64Char (v : Nat) : Byte := encodeStd.getD (v % 64) 0

/-- Go's `base64.StdEncoding.EncodeToString`: 3 bytes give 4 characters, a
trailing group of 1 or 2 bytes is padded with `=`. -/
def base64StdEncode : GoString → GoString
  | [] => []
  | [b0] =>
    let v := b0.val * 65536
    [b64Char (v >>> 18), b64Char (v >>> 12), 61, 61]
  | [b0, b1] =>
    let v := b0.val * 65536 + b1.val * 256
    [b64Char (v >>> 18), b64Char (v >>> 12), b64Char (v >>> 6), 61]
  | b0 :: b1 :: b2 :: rest =>
    let v := b0.val * 65536 + b1.val * 256 + b2.val
    b64Char (v >>> 18) :: b64Char (v >>> 12) :: b64Char (v >>> 6) :: b64Char v ::
      base64StdEncode rest

/-! ## `crypto/sha256` (FIPS 180-4) -/

/-- The SHA-256 round constants. -/
def K256 : List Nat := [
  0x428a2f98, 0x71374491, 0xb5c0fbcf, 0xe9b5dba5, 0x3956c25b, 0x59f111f1, 0x923f82a4, 0xab1c5ed5,
  0xd807aa98, 0x12835b01, 0x243185be, 0x550c7dc3, 0x72be5d74, 0x80deb1fe, 0x9bdc06a7, 0xc19bf174,
  0xe49b69c1, 0xefbe4786, 0x0fc19dc6, 0x240ca1cc, 0x2de92c6f, 0x4a7484aa, 0x5cb0a9dc, 0x76f988da,
  0x983e5152, 0xa831c66d, 0xb00327c8, 0xbf597fc7, 0xc6e00bf3, 0xd5a79147, 0x06ca6351, 0x14292967,
  0x27b70a85, 0x2e1b2138, 0x4d2c6dfc, 0x53380d13, 0x650a7354, 0x766a0abb, 0x81c2c92e, 0x92722c85,
  0xa2bfe8a1, 0xa81a664b, 0xc24b8b70, 0xc76c51a3, 0xd192e819, 0xd6990624, 0xf40e3585, 0x106aa070,
  0x19a4c116, 0x1e376c08, 0x2748774c, 0x34b0bcb5, 0x391c0cb3, 0x4ed8aa4a, 0x5b9cca4f, 0x682e6ff3,
  0x748f82ee, 0x78a5636f, 0x84c87814, 0x8cc70208, 0x90befffa, 0xa4506ceb, 0xbef9a3f7, 0xc67178f2]

/-- Truncation to a 32-bit word. -/
def w32 (x : Nat) : Nat := x % 4294967296

/-- Rotation of a 32-bit word to the right. -/
def rotr (x n : Nat) : Nat := w32 ((x >>> n) ||| (x <<< (32 - n)))

/-- The eight working variables, equally the chaining value. -/
structure H8 where
  a : Nat
  b : Nat
  c : Nat
  d : Nat
  e : Nat
  f : Nat
  g : Nat
  h : Nat
deriving DecidableEq, Repr

/-- The initial hash value. -/
def initH : H8 :=
  ⟨0x6a09e667, 0xbb67ae85, 0x3c6ef372, 0xa54ff53a, 0x510e527f, 0x9b05688c, 0x1f83d9ab, 0x5be0cd19⟩

/-- One round of the compression function with constant `k` and schedule
word `w`. -/
def round (s : H8) (k w : Nat) : H8 :=
  let t1 := w32 (s.h + ((rotr s.e 6) ^^^ (rotr s.e 11) ^^^ (rotr s.e 25)) +
    ((s.e &&& s.f) ^^^ ((s.e ^^^ 4294967295) &&& s.g)) + k + w)
  let t2 := w32 (((rotr s.a 2) ^^^ (rotr s.a 13) ^^^ (rotr s.a 22)) +
    ((s.a &&& s.b) ^^^ (s.a &&& s.c) ^^^ (s.b &&& s.c)))
  ⟨w32 (t1 + t2), s.a, s.b, s.c, w32 (s.d + t1), s.e, s.f, s.g⟩

/-- The message schedule: extends the words seen so far, held most recent
first, by `n` further words. -/
def schedule : Nat → List Nat → List Nat
  | 0, ws => ws
  | n + 1, ws =>
    let v1 := ws.getD 1 0
    let t1 := (rotr v1 17) ^^^ (rotr v1 19) ^^^ (v1 >>> 10)
    let v2 := ws.getD 14 0
    let t2 := (rotr v2 7) ^^^ (rotr v2 18) ^^^ (v2 >>> 3)
    schedule n (w32 (t1 + ws.getD 6 0 + t2 + ws.getD 15 0) :: ws)

/-- The rounds of one block, over the constants and the schedule. -/
def rounds : H8 → List Nat → List Nat → H8
  | s, k :: ks, w :: ws => rounds (round s k w) ks ws
  | s, _, _ => s

/-- Big-endian 32-bit words of a byte sequence. -/
def beWords : List Byte → List Nat
  | b0 :: b1 :: b2 :: b3 :: rest =>
    (b0.val * 16777216 + b1.val * 65536 + b2.val * 256 + b3.val) :: beWords rest
  | _ => []

/-- The compression of one 64-byte block into the chaining value. -/
def block (s : H8) (p : List Byte) : H8 :=
  let w := (schedule 48 (beWords p).reverse).reverse
  let t := rounds s K256 w
  ⟨w32 (s.a + t.a), w32 (s.b + t.b), w32 (s.c + t.c), w32 (s.d + t.d),
   w32 (s.e + t.e), w32 (s.f + t.f), w32 (s.g + t.g), w32 (s.h + t.h)⟩

/-- Compression of `n` consecutive blocks. -/
def blocks : Nat → H8 → List Byte → H8
  | 0, s, _ => s
  | n + 1, s, p => blocks n (block s (p.take 64)) (p.drop 64)

/-- Big-endian bytes of a 32-bit word. -/
def be32 (x : Nat) : List Byte := [byteOf (x >>> 24), byteOf (x >>> 16), byteOf (x >>> 8), byteOf x]

/-- Big-endian bytes of a 64-bit length. -/
def be64 (x : Nat) : List Byte := be32 (x >>> 32) ++ be32 x

/-- The padding of a message: a one bit, zeros, and the bit length. -/
def pad (m : List Byte) : List Byte :=
  m ++ [128] ++ List.replicate ((119 - m.length % 64) % 64) 0 ++ be64 (m.length * 8)

/-- The SHA-256 digest of a message (`sha256.Sum256`). -/
def sum256 (m : List Byte) : List Byte :=
  let p := pad m
  let s := blocks (p.length / 64) initH p
  be32 s.a ++ be32 s.b ++ be32 s.c ++ be32 s.d ++ be32 s.e ++ be32 s.f ++ be32 s.g ++ be32 s.h

/-! ## `hash.Hash`, `crypto/hmac` -/

/-- A value of the interface `hash.Hash`: the digest function of the
algorithm, its block size in bytes, and the bytes written so far. -/
structure Hash where
  digest : GoString → GoString
  blockSize : Nat
  written : GoString

/-- The method `Write`. -/
def Hash.Write (d : Hash) (p : GoString) : Hash := { d with written := d.written ++ p }

/-- The method `Sum`: appends the digest of what was written to `b`. -/
def Hash.Sum (d : Hash) (b : GoString) : GoString := b ++ d.digest d.written

/-- The method `Reset`. -/
def Hash.Reset (d : Hash) : Hash := { d with written := [] }

/-- The method `BlockSize`. -/
def Hash.BlockSize (d : Hash) : Nat := d.blockSize

/-- The constructor `sha256.New`: a fresh SHA-256 hash object. -/
def sha256New (_ : Unit) : Hash := ⟨sum256, 64, []⟩

/-- The hash object returned by `hmac.New`. -/
structure HMAC where
  opad : GoString
  ipad : GoString
  outer : Hash
  inner : Hash

/-- Go's `copy(pad, key)` into a zeroed buffer of `blocksize` bytes, followed
by the xor of every byte with `x`. -/
def xorPad (blocksize : Nat) (key : GoString) (x : Nat) : GoString :=
  ((key.take blocksize) ++ List.replicate (blocksize - key.length) (0 : Byte)).map
    fun (b : Byte) => byteOf (b.val ^^^ x)

/-- Go's `hmac.New(h, key)`: a key longer than a block is hashed first; the
inner hash starts with the inner pad written. -/
def hmacNew (h : Unit → Hash) (key : GoString) : HMAC :=
  let outer := h ()
  let inner := h ()
  let blocksize := inner.BlockSize
  let keyOuter : GoString × Hash :=
    if blocksize < key.length then
      let o := outer.Write key
      (o.Sum [], o)
    else (key, outer)
  let ipad := xorPad blocksize keyOuter.1 0x36
  let opad := xorPad blocksize keyOuter.1 0x5c
  ⟨opad, ipad, keyOuter.2, inner.Write ipad⟩

/-- The method `Write` of the HMAC object. -/
def HMAC.Write (h : HMAC) (p : GoString) : HMAC := { h with inner := h.inner.Write p }

/-- The method `Sum` of the HMAC object. -/
def HMAC.Sum (h : HMAC) (b : GoString) : GoString :=
  let origLen := b.length
  let b1 := h.inner.Sum b
  let outer := (h.outer.Reset).Write h.opad
  let outer := outer.Write (b1.drop origLen)
  outer.Sum (b1.take origLen)

/-- HMAC as the reference function of RFC 2104 over a hash `H` with block
size `B`: `H((K ⊕ opad) ‖ H((K ⊕ ipad) ‖ text))`, the key hashed first when
it is longer than a block and then padded with zeros to the block size. -/
def hmacRFC2104 (H : GoString → GoString) (B : Nat) (key text : GoString) : GoString :=
  let k := if B < key.length then H key else key
  let k0 : GoString := k ++ List.replicate (B - k.length) (0 : Byte)
  H (k0.map (fun (b : Byte) => byteOf (b.val ^^^ 0x5c)) ++
    H (k0.map (fun (b : Byte) => byteOf (b.val ^^^ 0x36)) ++ text))

/-- HMAC-SHA256, the reference function. -/
def hmacSHA256 (key text : GoString) : GoString := hmacRFC2104 sum256 64 key text

/-! ## `bytes.Buffer` -/

/-- A `bytes.Buffer`: the bytes written and not yet read. -/
structure Buffer where
  buf : GoString
deriving DecidableEq, Repr

/-- The zero value `var buffer bytes.Buffer`. -/
def Buffer.empty : Buffer := ⟨[]⟩

/-- The method `WriteString`. -/
def Buffer.WriteString (b : Buffer) (s : GoString) : Buffer := ⟨b.buf ++ s⟩

/-- The method `String`. -/
def Buffer.String (b : Buffer) : GoString := b.buf

/-- The constructor `bytes.NewBuffer`. -/
def NewBuffer (b : GoString) : Buffer := ⟨b⟩

/-! ## `net/http` -/

/-- Go's `validHeaderFieldByte`: the token characters of RFC 7230. -/
def validHeaderFieldByte (c : Byte) : Bool :=
  (48 ≤ c.val && c.val ≤ 57) || (65 ≤ c.val && c.val ≤ 90) || (97 ≤ c.val && c.val ≤ 122) ||
  c.val ∈ [33, 35, 36, 37, 38, 39, 42, 43, 45, 46, 94, 95, 96, 124, 126]

/-- The letter-case pass of `canonicalMIMEHeaderKey`: upper case at the
start and after a hyphen, lower case elsewhere. -/
def canonicalCase : Bool → GoString → GoString
  | _, [] => []
  | upper, c :: rest =>
    let c1 : Byte :=
      if upper ∧ 97 ≤ c.val ∧ c.val ≤ 122 then byteOf (c.val - 32)
      else if ¬ upper ∧ 65 ≤ c.val ∧ c.val ≤ 90 then byteOf (c.val + 32)
      else c
    c1 :: canonicalCase (c == 45) rest

/-- Go's `textproto.CanonicalMIMEHeaderKey`: a key holding a byte that is
not a token character is returned unchanged. -/
def CanonicalMIMEHeaderKey (s : GoString) : GoString :=
  if s.all validHeaderFieldByte then canonicalCase true s else s

/-- An `http.Header`, a map from canonical keys to lists of values, as an
association list in which the first binding of a key counts. -/
abbrev Header := List (GoString × List GoString)

/-- The method `Header.Get`: the first value under the canonical form of
the key, the empty string when there is none. -/
def Header.Get (h : Header) (key : GoString) : GoString :=
  match h.lookup (CanonicalMIMEHeaderKey key) with
  | some (v :: _) => v
  | _ => []

/-- An `io.ReadCloser` seen through `ioutil.ReadAll`: the bytes it yields
and the error, if any, that ends the reading. -/
structure ReadCloser where
  data : GoString
  err : Option GoError
deriving DecidableEq, Repr

/-- Go's `ioutil.ReadAll`: the bytes read and the error that stopped the
reading, nil at end of input. -/
def ReadAll (b : ReadCloser) : GoString × Option GoError := (b.data, b.err)

/-- Go's `ioutil.NopCloser` over a buffer: reading it yields the bytes of the
buffer and no error; closing it does nothing. -/
def NopCloser (b : Buffer) : ReadCloser := ⟨b.buf, none⟩

/-- An `http.Response`, with the fields the package touches. The `Body`
interface value may be nil. -/
structure HTTPResponse where
  StatusCode : Int
  Header : Header
  Body : Option ReadCloser
deriving DecidableEq, Repr

/-- An `http.Request` as built by the client. -/
structure HTTPRequest where
  Method : GoString
  URL : GoString
  Header : Header
  Body : GoString
deriving DecidableEq, Repr

/-- The part of `sa.Client` the package uses: the application id and key and
the four methods, which live outside this package and are parameters. A
pointer result may be nil whatever the error is. -/
structure Client where
  AppID : GoString
  AppKey : GoString
  BuildGetRequest : GoString → Option HTTPRequest × Option GoError
  BuildPostRequest : GoString → GoString → Option HTTPRequest × Option GoError
  BuildPutRequest : GoString → GoString → Option HTTPRequest × Option GoError
  Do : Option HTTPRequest → Option HTTPResponse × Option GoError

/-! ## The data model of the package -/

/-- The endpoint of the JavaScript source. -/
def jsEndpoint : GoString := str "/api/v1/behavebio/js"

/-- The endpoint of the behaviour profile. -/
def behaveEndpoint : GoString := str "/api/v1/behavebio"

/-- A Go `float32`, held as its IEEE 754 bit pattern; the package never
computes with it. -/
abbrev Float32 := Fin 4294967296

/-- The struct `Results`: the score of one control. `Count` is an `int32`. -/
structure Results where
  ControlID : GoString
  Score : Float32
  Confidence : Float32
  Count : Int
deriving DecidableEq, Repr

/-- The struct `BehaviorBioResults`. -/
structure BehaviorBioResults where
  TotalScore : Float32
  TotalConfidence : Float32
  Device : GoString
  Results : List Results
deriving DecidableEq, Repr

/-- The struct `Response`. `RawJSON` and `HTTPResponse` carry the JSON tag
`-`; `HTTPResponse` is a pointer and may be nil. -/
structure Response where
  Source : GoString
  BehaviorResults : BehaviorBioResults
  Status : GoString
  Message : GoString
  RawJSON : GoString
  HTTPResponse : Option HTTPResponse
deriving DecidableEq, Repr

/-- The value `new(Response)` points to: every field zero. -/
def Response.zero : Response := ⟨[], ⟨0, 0, [], []⟩, [], [], [], none⟩

/-- The struct `Request`. -/
structure Request where
  UserID : GoString
  BehaviorProfile : GoString
  HostAddress : GoString
  UserAgent : GoString
  FieldName : GoString
  FieldType : GoString
  DeviceType : GoString
deriving DecidableEq, Repr

/-! ## `unicode/utf8` -/

/-- The rune `utf8.RuneError`, U+FFFD. -/
def RuneError : Nat := 0xFFFD

/-- Go's `utf8.DecodeRune` (equally `DecodeRuneInString`): the first rune of
the input and its width in bytes; an invalid or short encoding gives
`(RuneError, 1)`, empty input `(RuneError, 0)`. -/
def decodeRune : GoString → Nat × Nat
  | [] => (RuneError, 0)
  | s0 :: rest =>
    if s0.val < 0x80 then (s0.val, 1)
    else if s0.val < 0xC2 ∨ 0xF4 < s0.val then (RuneError, 1)
    else
      let sz : Nat := if s0.val < 0xE0 then 2 else if s0.val < 0xF0 then 3 else 4
      let lo : Nat := if s0.val = 0xE0 then 0xA0 else if s0.val = 0xF0 then 0x90 else 0x80
      let hi : Nat := if s0.val = 0xED then 0x9F else if s0.val = 0xF4 then 0x8F else 0xBF
      if rest.length + 1 < sz then (RuneError, 1)
      else
        match rest with
        | [] => (RuneError, 1)
        | s1 :: rest1 =>
          if s1.val < lo ∨ hi < s1.val then (RuneError, 1)
          else if sz ≤ 2 then (((s0.val &&& 0x1F) <<< 6) ||| (s1.val &&& 0x3F), 2)
          else
            match rest1 with
            | [] => (RuneError, 1)
            | s2 :: rest2 =>
              if s2.val < 0x80 ∨ 0xBF < s2.val then (RuneError, 1)
              else if sz ≤ 3 then
                (((s0.val &&& 0x0F) <<< 12) ||| ((s1.val &&& 0x3F) <<< 6) ||| (s2.val &&& 0x3F), 3)
              else
                match rest2 with
                | [] => (RuneError, 1)
                | s3 :: _ =>
                  if s3.val < 0x80 ∨ 0xBF < s3.val then (RuneError, 1)
                  else
                    (((s0.val &&& 0x07) <<< 18) ||| ((s1.val &&& 0x3F) <<< 12) |||
                      ((s2.val &&& 0x3F) <<< 6) ||| (s3.val &&& 0x3F), 4)

/-! ## `encoding/json`: encoding of the struct `Request` -/

/-- Go's `htmlSafeSet`: the ASCII bytes `json.Marshal` copies unescaped, all
from the space on except the double quote, `&`, `<`, `>` and the backslash. -/
def htmlSafeSet (b : Byte) : Bool :=
  0x20 ≤ b.val && b.val < 0x80 && b.val != 34 && b.val != 38 && b.val != 60 && b.val != 62 &&
    b.val != 92

/-- The digit table `hex` of the encoder, indexed by a 4-bit value. -/
def hexLower (v : Nat) : Byte := (str "0123456789abcdef").getD (v % 16) 0

/-- The escape the encoder writes for an ASCII byte outside `htmlSafeSet`: a
backslash before the backslash and the double quote, the short forms for
backspace, form feed, line feed, carriage return and tab, and `\u00XX` for
the other control characters and for `<`, `>` and `&`. -/
def escapeASCII (b : Byte) : GoString :=
  if b.val = 92 ∨ b.val = 34 then [92, b]
  else if b.val = 8 then [92, 98]
  else if b.val = 12 then [92, 102]
  else if b.val = 10 then [92, 110]
  else if b.val = 13 then [92, 114]
  else if b.val = 9 then [92, 116]
  else [92, 117, 48, 48, hexLower (b.val >>> 4), hexLower (b.val &&& 0xF)]

/-- The loop of the encoder's `appendString` with `escapeHTML` set, over the
bytes not yet consumed; every step consumes at least one byte, so a fuel equal
to the length of the input is enough. -/
def appendStringLoop : Nat → GoString → GoString
  | 0, _ => []
  | _ + 1, [] => []
  | fuel + 1, b :: rest =>
    if b.val < 0x80 then
      (if htmlSafeSet b then [b] else escapeASCII b) ++ appendStringLoop fuel rest
    else
      let cs := decodeRune (b :: rest)
      if cs.1 = RuneError ∧ cs.2 = 1 then
        str "\\ufffd" ++ appendStringLoop fuel rest
      else if cs.1 = 0x2028 ∨ cs.1 = 0x2029 then
        str "\\u202" ++ [hexLower (cs.1 &&& 0xF)] ++ appendStringLoop fuel ((b :: rest).drop cs.2)
      else
        (b :: rest).take cs.2 ++ appendStringLoop fuel ((b :: rest).drop cs.2)

/-- The encoder's `appendString`: the JSON string literal for a Go string. -/
def appendString (src : GoString) : GoString :=
  [34] ++ appendStringLoop src.length src ++ [34]

/-- The field loop of the encoder's `structEncoder.encode` over fields that
are all strings tagged `omitempty`: `next` is the byte to write before the
next field that is kept. -/
def structEncode : List (GoString × GoString) → Byte → GoString
  | [], next => if next.val = 123 then [123, 125] else [125]
  | (name, v) :: fields, next =>
    if v.length = 0 then structEncode fields next
    else [next] ++ ([34] ++ name ++ [34, 58]) ++ appendString v ++ structEncode fields 44

/-- The JSON keys and values of a `Request`, in the order of the struct. -/
def Request.jsonFields (r : Request) : List (GoString × GoString) :=
  [(str "userId", r.UserID), (str "behaviorProfile", r.BehaviorProfile),
   (str "hostAddress", r.HostAddress), (str "userAgent", r.UserAgent),
   (str "fieldName", r.FieldName), (str "fieldType", r.FieldType),
   (str "deviceType", r.DeviceType)]

/-- Go's `json.Marshal` applied to a `*Request`: the encoding never fails for
a struct of strings. -/
def jsonMarshal (r : Request) : GoString × Option GoError :=
  (structEncode r.jsonFields 123, none)

/-- Go's `json.Unmarshal` with a `*Response` as target, a parameter: the
struct after decoding and the error. -/
abbrev ResponseDecoder := GoString → Response → Response × Option GoError

/-! ## The executors `Get`, `Post`, `Put` -/

/-- The common tail of `Get`, `Post` and `Put` after `c.Do` (lines 112-127,
149-164, 186-201): read the body, decode it, keep the raw text and the HTTP
response whose body is reset to a buffer over the bytes read. A nil response
with a nil error, or a nil body, makes the call panic. -/
def finish (jsonUnmarshal : ResponseDecoder) (done : Option HTTPResponse × Option GoError) :
    Outcome (Option Response × Option GoError) :=
  match done with
  | (_, some err) => .returned (none, some err)
  | (none, none) => .panicked
  | (some httpResponse, none) =>
    let behaveResponse := Response.zero
    match httpResponse.Body with
    | none => .panicked
    | some reader =>
      match ReadAll reader with
      | (_, some err) => .returned (none, some err)
      | (body, none) =>
        match jsonUnmarshal body behaveResponse with
        | (_, some err) => .returned (none, some err)
        | (behaveResponse, none) =>
          let behaveResponse := { behaveResponse with RawJSON := body }
          let httpResponse := { httpResponse with Body := some (NopCloser (NewBuffer body)) }
          let behaveResponse := { behaveResponse with HTTPResponse := some httpResponse }
          .returned (some behaveResponse, none)

/-- The method `Request.Get` (lines 106-128). -/
def Get (jsonUnmarshal : ResponseDecoder) (_r : Request) (c : Client) (endpoint : GoString) :
    Outcome (Option Response × Option GoError) :=
  match c.BuildGetRequest endpoint with
  | (_, some err) => .returned (none, some err)
  | (httpRequest, none) => finish jsonUnmarshal (c.Do httpRequest)

/-- The method `Request.Post` (lines 139-165). -/
def Post (jsonUnmarshal : ResponseDecoder) (r : Request) (c : Client) (endpoint : GoString) :
    Outcome (Option Response × Option GoError) :=
  match jsonMarshal r with
  | (_, some err) => .returned (none, some err)
  | (jsonRequest, none) =>
    match c.BuildPostRequest endpoint jsonRequest with
    | (_, some err) => .returned (none, some err)
    | (httpRequest, none) => finish jsonUnmarshal (c.Do httpRequest)

/-- The method `Request.Put` (lines 176-202). -/
def Put (jsonUnmarshal : ResponseDecoder) (r : Request) (c : Client) (endpoint : GoString) :
    Outcome (Option Response × Option GoError) :=
  match jsonMarshal r with
  | (_, some err) => .returned (none, some err)
  | (jsonRequest, none) =>
    match c.BuildPutRequest endpoint jsonRequest with
    | (_, some err) => .returned (none, some err)
    | (httpRequest, none) => finish jsonUnmarshal (c.Do httpRequest)

/-- The shape shared by the three helpers: `if err != nil { return nil, err };
return behaveResponse, nil`. -/
def passThrough (o : Outcome (Option Response × Option GoError)) :
    Outcome (Option Response × Option GoError) :=
  match o with
  | .panicked => .panicked
  | .returned (_, some err) => .returned (none, some err)
  | .returned (behaveResponse, none) => .returned (behaveResponse, none)

/-- The method `Request.GetBehaveJs` (lines 211-217); the first component is
the receiver after the call. -/
def GetBehaveJs (jsonUnmarshal : ResponseDecoder) (r : Request) (c : Client) :
    Request × Outcome (Option Response × Option GoError) :=
  (r, passThrough (Get jsonUnmarshal r c jsEndpoint))

/-- The method `Request.PostBehaveProfile` (lines 230-240); the first
component is the receiver after the call. -/
def PostBehaveProfile (jsonUnmarshal : ResponseDecoder) (r : Request) (c : Client)
    (userID behaveProfile hostAddress userAgent : GoString) :
    Request × Outcome (Option Response × Option GoError) :=
  let r := { r with UserID := userID }
  let r := { r with BehaviorProfile := behaveProfile }
  let r := { r with HostAddress := hostAddress }
  let r := { r with UserAgent := userAgent }
  (r, passThrough (Post jsonUnmarshal r c behaveEndpoint))

/-- The method `Request.ResetBehaveProfile` (lines 254-264); the first
component is the receiver after the call. -/
def ResetBehaveProfile (jsonUnmarshal : ResponseDecoder) (r : Request) (c : Client)
    (userID fieldName fieldType deviceType : GoString) :
    Request × Outcome (Option Response × Option GoError) :=
  let r := { r with UserID := userID }
  let r := { r with FieldName := fieldName }
  let r := { r with FieldType := fieldType }
  let r := { r with DeviceType := deviceType }
  (r, passThrough (Put jsonUnmarshal r c behaveEndpoint))

/-! ## `IsSignatureValid` -/

/-- The method `Response.IsSignatureValid` (behaveBio.go, lines 274-293). Reading
`r.HTTPResponse.Header` panics when the pointer is nil; the error of
`hex.DecodeString` is discarded. -/
def IsSignatureValid (r : Response) (c : Client) : Outcome (Bool × Option GoError) :=
  match r.HTTPResponse with
  | none => .panicked
  | some httpResponse =>
    let saDate := httpResponse.Header.Get (str "X-SA-DATE")
    let saSignature := httpResponse.Header.Get (str "X-SA-SIGNATURE")
    let buffer := Buffer.empty
    let buffer := buffer.WriteString saDate
    let buffer := buffer.WriteString (str "\n")
    let buffer := buffer.WriteString c.AppID
    let buffer := buffer.WriteString (str "\n")
    let buffer := buffer.WriteString r.RawJSON
    let raw := buffer.String
    let byteKey := (hexDecodeString c.AppKey).1
    let byteData := raw
    let sig := hmacNew sha256New byteKey
    let sig := sig.Write byteData
    let computedSig := base64StdEncode (sig.Sum [])
    if computedSig ≠ saSignature then .returned (false, none)
    else .returned (true, none)

/-- The value of the local `raw` (line 283): what the five `WriteString`
calls leave in the buffer. -/
def signedString (saDate appID rawJSON : GoString) : GoString :=
  (((((Buffer.empty.WriteString saDate).WriteString (str "\n")).WriteString appID).WriteString
    (str "\n")).WriteString rawJSON).String

/-- The value of the local `computedSig` (line 288). -/
def computedSig (saDate appID rawJSON appKey : GoString) : GoString :=
  base64StdEncode (((hmacNew sha256New (hexDecodeString appKey).1).Write
    (signedString saDate appID rawJSON)).Sum [])

/-! ## Reference notions used by the specification -/

/-- A hexadecimal digit: `0-9`, `a-f` or `A-F`. -/
def isHexDigit (c : Byte) : Bool :=
  (48 ≤ c.val && c.val ≤ 57) || (97 ≤ c.val && c.val ≤ 102) || (65 ≤ c.val && c.val ≤ 70)

/-- A valid hex string: an even number of hexadecimal digits. -/
def validHex (s : GoString) : Bool := s.length % 2 == 0 && s.all isHexDigit

/-- The value of a hexadecimal digit. -/
def hexDigitValue (c : Byte) : Nat :=
  if c.val ≤ 57 then c.val - 48 else if c.val ≤ 70 then c.val - 55 else c.val - 87

/-- The bytes a valid hex string denotes: one byte for each pair of digits. -/
def hexdecode : GoString → GoString
  | p :: q :: rest => byteOf (16 * hexDigitValue p + hexDigitValue q) :: hexdecode rest
  | _ => []

/-- The 6-bit value of a character of the standard base64 alphabet (the
decode map of `base64.StdEncoding`); 255 for any other byte. -/
def decodeMapStd (c : Byte) : Nat :=
  if 65 ≤ c.val ∧ c.val ≤ 90 then c.val - 65
  else if 97 ≤ c.val ∧ c.val ≤ 122 then c.val - 71
  else if 48 ≤ c.val ∧ c.val ≤ 57 then c.val + 4
  else if c.val = 43 then 62
  else if c.val = 47 then 63
  else 255

/-- Exactly one of the two results of an executor is nil. -/
def ExactlyOneNil (p : Option Response × Option GoError) : Prop :=
  (p.2 ≠ none → p.1 = none) ∧ (p.2 = none → p.1 ≠ none)

/-- The convention of Go HTTP clients for `Do`: a nil error comes with a
response that is not nil and whose body is not nil. -/
def DoConvention (c : Client) : Prop :=
  ∀ req, (c.Do req).2 = none → ∃ resp reader, (c.Do req).1 = some resp ∧ resp.Body = some reader

/-- What a successful executor retains in the `Response` it returns, given
the result `done` of `c.Do`: the raw text is the body read from the HTTP
response, the HTTP response is the one `Do` returned with its body reset to
a buffer over the bytes read, and the JSON-visible fields are those decoded
from the body. -/
def Retains (jsonUnmarshal : ResponseDecoder) (done : Option HTTPResponse × Option GoError)
    (resp : Response) : Prop :=
  ∃ httpResponse reader body,
    done = (some httpResponse, none) ∧ httpResponse.Body = some reader ∧
    ReadAll reader = (body, none) ∧ (jsonUnmarshal body Response.zero).2 = none ∧
    resp.RawJSON = body ∧
    resp.HTTPResponse = some { httpResponse with Body := some (NopCloser (NewBuffer body)) } ∧
    resp.Source = (jsonUnmarshal body Response.zero).1.Source ∧
    resp.BehaviorResults = (jsonUnmarshal body Response.zero).1.BehaviorResults ∧
    resp.Status = (jsonUnmarshal body Response.zero).1.Status ∧
    resp.Message = (jsonUnmarshal body Response.zero).1.Message

/-- The error `e` is the error of the first failing step after the request
was built with result `built`: building the request, `c.Do`, reading the
body, decoding the body; a later step is looked at only when the earlier
ones succeeded. -/
def FirstFailure (jsonUnmarshal : ResponseDecoder) (c : Client)
    (built : Option HTTPRequest × Option GoError) (e : GoError) : Prop :=
  built.2 = some e ∨
  (built.2 = none ∧ (c.Do built.1).2 = some e) ∨
  (built.2 = none ∧ ∃ resp reader, c.Do built.1 = (some resp, none) ∧
    resp.Body = some reader ∧ (ReadAll reader).2 = some e) ∨
  (built.2 = none ∧ ∃ resp reader body, c.Do built.1 = (some resp, none) ∧
    resp.Body = some reader ∧ ReadAll reader = (body, none) ∧
    (jsonUnmarshal body Response.zero).2 = some e)

/-! ## `encoding/json`: decoding into the struct `Request` -/

/-- The white space of JSON: space, tab, carriage return, line feed. -/
def isSpace (c : Byte) : Bool := c.val == 32 || c.val == 9 || c.val == 13 || c.val == 10

/-- The rest of the input after leading white space. -/
def skipSpace : GoString → GoString
  | [] => []
  | c :: rest => if isSpace c then skipSpace rest else c :: rest

/-- The character after a backslash in a two-byte escape: one of
`b f n r t \ / "`. -/
def isSimpleEscape (c : Byte) : Bool :=
  c.val == 98 || c.val == 102 || c.val == 110 || c.val == 114 || c.val == 116 || c.val == 92 ||
    c.val == 47 || c.val == 34

/-- The states of the scanner inside a string literal: `stateInString`,
`stateInStringEsc` after a backslash, and `stateInStringEscU` with its
successors, which expect `more + 1` further hexadecimal digits. -/
inductive StringState where
  | inString
  | esc
  | escU (more : Nat)
deriving DecidableEq, Repr

/-- The scanner inside a string literal, after the opening quote: the raw
contents up to the closing quote and the input after it; `none` on a control
character, an invalid escape or a missing closing quote. -/
def scanString : StringState → GoString → Option (GoString × GoString)
  | _, [] => none
  | .inString, c :: rest =>
    if c.val = 34 then some ([], rest)
    else if c.val = 92 then (scanString .esc rest).map fun p => (c :: p.1, p.2)
    else if c.val < 32 then none
    else (scanString .inString rest).map fun p => (c :: p.1, p.2)
  | .esc, c :: rest =>
    if isSimpleEscape c then (scanString .inString rest).map fun p => (c :: p.1, p.2)
    else if c.val = 117 then (scanString (.escU 3) rest).map fun p => (c :: p.1, p.2)
    else none
  | .escU more, c :: rest =>
    if isHexDigit c then
      (scanString (match more with
        | 0 => .inString
        | k + 1 => .escU k) rest).map fun p => (c :: p.1, p.2)
    else none

/-- A decimal digit. -/
def isDigit (c : Byte) : Bool := 48 ≤ c.val && c.val ≤ 57

/-- The rest of the input after leading decimal digits. -/
def skipDigits : GoString → GoString
  | [] => []
  | c :: rest => if isDigit c then skipDigits rest else c :: rest

/-- The rest after one or more digits, `none` when there is no digit. -/
def digits1 : GoString → Option GoString
  | [] => none
  | c :: rest => if isDigit c then some (skipDigits rest) else none

/-- The scanner on a number: an optional minus, `0` or a digit sequence not
starting with `0`, an optional fraction, an optional exponent. It yields the
input after the number. -/
def scanNumber (s : GoString) : Option GoString :=
  let s1 := match s with
    | c :: rest => if c.val = 45 then rest else s
    | [] => s
  let afterInt : Option GoString := match s1 with
    | c :: rest => if c.val = 48 then some rest else if isDigit c then some (skipDigits rest) else none
    | [] => none
  match afterInt with
  | none => none
  | some s2 =>
    let afterFrac : Option GoString := match s2 with
      | c :: rest => if c.val = 46 then digits1 rest else some s2
      | [] => some s2
    match afterFrac with
    | none => none
    | some s3 =>
      match s3 with
      | c :: rest =>
        if c.val = 101 ∨ c.val = 69 then
          match rest with
          | d :: rest1 => if d.val = 43 ∨ d.val = 45 then digits1 rest1 else digits1 rest
          | [] => none
        else some s3
      | [] => some s3

/-- The rest of the input after the given literal word, `none` when the input
does not start with it. -/
def scanWord : GoString → GoString → Option GoString
  | [], s => some s
  | _ :: _, [] => none
  | w :: ws, c :: rest => if w = c then scanWord ws rest else none

/-- What the decoder needs to know of a JSON value: its kind, and for a
string the raw contents of the literal. -/
inductive JKind where
  | null
  | bool
  | number
  | string (raw : GoString)
  | array
  | object
deriving DecidableEq, Repr

/-- The scanner's `maxNestingDepth`. -/
def maxNestingDepth : Nat := 10000

mutual
/-- The scanner on one value that starts at the head of the input, with
`depth` containers open: the kind of the value and the input after it. -/
def parseValue : Nat → Nat → GoString → Option (JKind × GoString)
  | 0, _, _ => none
  | _ + 1, _, [] => none
  | fuel + 1, depth, c :: rest =>
    if c.val = 123 then
      if maxNestingDepth ≤ depth then none
      else
        match skipSpace rest with
        | [] => none
        | d :: rest1 =>
          if d.val = 125 then some (.object, rest1)
          else
            match parseMembers fuel (depth + 1) (d :: rest1) with
            | none => none
            | some (_, r) => some (.object, r)
    else if c.val = 91 then
      if maxNestingDepth ≤ depth then none
      else
        match skipSpace rest with
        | [] => none
        | d :: rest1 =>
          if d.val = 93 then some (.array, rest1)
          else
            match parseElements fuel (depth + 1) (d :: rest1) with
            | none => none
            | some r => some (.array, r)
    else if c.val = 34 then
      match scanString .inString rest with
      | none => none
      | some (w, r) => some (.string w, r)
    else if c.val = 45 ∨ isDigit c then
      match scanNumber (c :: rest) with
      | none => none
      | some r => some (.number, r)
    else if c.val = 116 then
      match scanWord (str "rue") rest with
      | none => none
      | some r => some (.bool, r)
    else if c.val = 102 then
      match scanWord (str "alse") rest with
      | none => none
      | some r => some (.bool, r)
    else if c.val = 110 then
      match scanWord (str "ull") rest with
      | none => none
      | some r => some (.null, r)
    else none
/-- The scanner on the members of an object, the input starting at a key: the
raw keys with the kinds of their values, and the input after the closing
brace. -/
def parseMembers : Nat → Nat → GoString → Option (List (GoString × JKind) × GoString)
  | 0, _, _ => none
  | _ + 1, _, [] => none
  | fuel + 1, depth, q :: rest =>
    if q.val ≠ 34 then none
    else
      match scanString .inString rest with
      | none => none
      | some (key, rest1) =>
        match skipSpace rest1 with
        | [] => none
        | colon :: rest2 =>
          if colon.val ≠ 58 then none
          else
            match parseValue fuel depth (skipSpace rest2) with
            | none => none
            | some (v, rest3) =>
              match skipSpace rest3 with
              | [] => none
              | x :: rest4 =>
                if x.val = 44 then
                  match parseMembers fuel depth (skipSpace rest4) with
                  | none => none
                  | some (ms, r) => some ((key, v) :: ms, r)
                else if x.val = 125 then some ([(key, v)], rest4)
                else none
/-- The scanner on the elements of an array, the input starting at a value:
the input after the closing bracket. -/
def parseElements : Nat → Nat → GoString → Option GoString
  | 0, _, _ => none
  | fuel + 1, depth, s =>
    match parseValue fuel depth s with
    | none => none
    | some (_, rest1) =>
      match skipSpace rest1 with
      | [] => none
      | x :: rest2 =>
        if x.val = 44 then parseElements fuel depth (skipSpace rest2)
        else if x.val = 93 then some rest2
        else none
end

/-- The decoder's `getu4`: the 16-bit value spelled by four hexadecimal
digits after a backslash and `u` at the head of the input, `none` when the
input does not start so. -/
def getu4 (s : GoString) : Option Nat :=
  match s with
  | b1 :: b2 :: h1 :: h2 :: h3 :: h4 :: _ =>
    if b1.val = 92 ∧ b2.val = 117 then
      match fromHexChar h1, fromHexChar h2, fromHexChar h3, fromHexChar h4 with
      | some a, some b, some c, some d => some (a * 4096 + b * 256 + c * 16 + d)
      | _, _, _, _ => none
    else none
  | _ => none

/-- The character an escape of two bytes stands for. -/
def simpleEscape (e : Byte) : Option Byte :=
  if e.val = 34 ∨ e.val = 92 ∨ e.val = 47 ∨ e.val = 39 then some e
  else if e.val = 98 then some 8
  else if e.val = 102 then some 12
  else if e.val = 110 then some 10
  else if e.val = 114 then some 13
  else if e.val = 116 then some 9
  else none

/-- Go's `utf16.DecodeRune`: the code point of a surrogate pair, U+FFFD when
the two values are not a valid pair. -/
def utf16DecodeRune (r1 r2 : Nat) : Nat :=
  if 0xD800 ≤ r1 ∧ r1 < 0xDC00 ∧ 0xDC00 ≤ r2 ∧ r2 < 0xE000 then
    (((r1 - 0xD800) <<< 10) ||| (r2 - 0xDC00)) + 0x10000
  else RuneError

/-- The loop of the decoder's `unquoteBytes` over the raw contents of a string
literal: escapes are replaced by what they stand for, a lone surrogate and
invalid UTF-8 by U+FFFD. Every step consumes at least one byte. (The short cut
of `unquoteBytes` for a literal without anything unusual returns the same
bytes.) -/
def unquoteLoop : Nat → GoString → Option GoString
  | 0, s => if s.isEmpty then some [] else none
  | _ + 1, [] => some []
  | fuel + 1, c :: rest =>
    if c.val = 92 then
      match rest with
      | [] => none
      | e :: rest1 =>
        if e.val = 117 then
          match getu4 (c :: rest) with
          | none => none
          | some rr =>
            let rest2 := rest1.drop 4
            if 0xD800 ≤ rr ∧ rr < 0xE000 then
              match getu4 rest2 with
              | some rr1 =>
                if utf16DecodeRune rr rr1 ≠ RuneError then
                  (unquoteLoop fuel (rest2.drop 6)).map fun t =>
                    encodeRune (utf16DecodeRune rr rr1) ++ t
                else (unquoteLoop fuel rest2).map fun t => encodeRune RuneError ++ t
              | none => (unquoteLoop fuel rest2).map fun t => encodeRune RuneError ++ t
            else (unquoteLoop fuel rest2).map fun t => encodeRune rr ++ t
        else
          match simpleEscape e with
          | none => none
          | some b => (unquoteLoop fuel rest1).map fun t => b :: t
    else if c.val = 34 ∨ c.val < 32 then none
    else if c.val < 0x80 then (unquoteLoop fuel rest).map fun t => c :: t
    else
      let rs := decodeRune (c :: rest)
      (unquoteLoop fuel ((c :: rest).drop rs.2)).map fun t => encodeRune rs.1 ++ t

/-- The decoder's `unquoteBytes` on the raw contents of a string literal. -/
def unquote (raw : GoString) : Option GoString := unquoteLoop raw.length raw

/-- The decoder's `foldName` as far as it matters for names made of ASCII
letters: ASCII letters become upper case, the Kelvin sign U+212A folds to `K`
and the long s U+017F to `S`; every other rune folds to a rune outside ASCII
and stands for itself here. -/
def foldName : Nat → GoString → GoString
  | 0, _ => []
  | _ + 1, [] => []
  | fuel + 1, c :: rest =>
    if c.val < 0x80 then
      (if 97 ≤ c.val ∧ c.val ≤ 122 then byteOf (c.val - 32) else c) :: foldName fuel rest
    else
      let rs := decodeRune (c :: rest)
      let folded : Nat := if rs.1 = 0x212A then 75 else if rs.1 = 0x17F then 83 else rs.1
      encodeRune folded ++ foldName fuel ((c :: rest).drop rs.2)

/-- The JSON names of the fields of `Request`, in the order of the struct. -/
def requestFieldNames : List GoString :=
  [str "userId", str "behaviorProfile", str "hostAddress", str "userAgent", str "fieldName",
   str "fieldType", str "deviceType"]

/-- The decoder's choice of the field for a key: the field with exactly that
name, else the first field whose folded name equals the folded key. -/
def findField (key : GoString) : Option Nat :=
  match requestFieldNames.indexOf? key with
  | some i => some i
  | none =>
    (requestFieldNames.map fun n => foldName n.length n).indexOf? (foldName key.length key)

/-- Assignment to the field of `Request` with the given index. -/
def Request.setField (r : Request) (i : Nat) (v : GoString) : Request :=
  match i with
  | 0 => { r with UserID := v }
  | 1 => { r with BehaviorProfile := v }
  | 2 => { r with HostAddress := v }
  | 3 => { r with UserAgent := v }
  | 4 => { r with FieldName := v }
  | 5 => { r with FieldType := v }
  | 6 => { r with DeviceType := v }
  | _ => r

/-- The decoder's `saveError`: only the first error is kept. -/
def saveError (saved : Option GoError) (e : GoError) : Option GoError :=
  match saved with
  | some s => some s
  | none => some e

/-- The decoder on one member of the top-level object: a string value is
unquoted into the field the key selects, `null` changes nothing, a value of
any other kind is a type error that is saved; a key that selects no field is
skipped. -/
def decodeMember (st : Request × Option GoError) (m : GoString × JKind) :
    Request × Option GoError :=
  match unquote m.1 with
  | none => (st.1, saveError st.2 ⟨"json: invalid string literal"⟩)
  | some key =>
    match findField key with
    | none => st
    | some i =>
      match m.2 with
      | .string raw =>
        match unquote raw with
        | none => (st.1, saveError st.2 ⟨"json: invalid string literal"⟩)
        | some v => (st.1.setField i v, st.2)
      | .null => st
      | .bool => (st.1, saveError st.2 ⟨"json: cannot unmarshal bool into Go struct field of type string"⟩)
      | .number => (st.1, saveError st.2 ⟨"json: cannot unmarshal number into Go struct field of type string"⟩)
      | .array => (st.1, saveError st.2 ⟨"json: cannot unmarshal array into Go struct field of type string"⟩)
      | .object => (st.1, saveError st.2 ⟨"json: cannot unmarshal object into Go struct field of type string"⟩)

/-- Go's `json.Unmarshal` with a `*Request` as target: the input must be one
valid JSON value surrounded by white space only, else a syntax error is
returned and the target is untouched; an object is decoded member by member,
`null` changes nothing, any other value is a type error. The scanner needs at
most one unit of fuel for every byte of a valid input, so the length of the
input is enough. -/
def jsonUnmarshalRequest (data : GoString) (target : Request) : Request × Option GoError :=
  match skipSpace data with
  | [] => (target, some ⟨"unexpected end of JSON input"⟩)
  | c :: rest =>
    if c.val = 123 then
      match skipSpace rest with
      | [] => (target, some ⟨"unexpected end of JSON input"⟩)
      | d :: rest1 =>
        if d.val = 125 then
          if skipSpace rest1 = [] then (target, none)
          else (target, some ⟨"invalid character after top-level value"⟩)
        else
          match parseMembers data.length 1 (d :: rest1) with
          | none => (target, some ⟨"json: syntax error"⟩)
          | some (members, rest2) =>
            if skipSpace rest2 = [] then members.foldl decodeMember (target, none)
            else (target, some ⟨"invalid character after top-level value"⟩)
    else
      match parseValue data.length 0 (c :: rest) with
      | none => (target, some ⟨"json: syntax error"⟩)
      | some (kind, rest1) =>
        if skipSpace rest1 = [] then
          match kind with
          | .null => (target, none)
          | _ => (target, some ⟨"json: cannot unmarshal value into Go value of type Request"⟩)
        else (target, some ⟨"invalid character after top-level value"⟩)

/-- The zero value of `Request`. -/
def Request.zero : Request := ⟨[], [], [], [], [], [], []⟩

/-- Go's `utf8.ValidString`, by repeated decoding: no position decodes to the
error rune with width 1. -/
def validString : Nat → GoString → Bool
  | 0, s => s.isEmpty
  | _ + 1, [] => true
  | fuel + 1, c :: rest =>
    let rs := decodeRune (c :: rest)
    if rs.1 = RuneError ∧ rs.2 = 1 then false else validString fuel ((c :: rest).drop rs.2)

/-- The string is valid UTF-8. -/
abbrev ValidUTF8 (s : GoString) : Prop := validString s.length s = true

/-- Every field of the request is valid UTF-8. -/
abbrev Request.ValidUTF8 (r : Request) : Prop :=
  Behavebio.ValidUTF8 r.UserID ∧ Behavebio.ValidUTF8 r.BehaviorProfile ∧
  Behavebio.ValidUTF8 r.HostAddress ∧ Behavebio.ValidUTF8 r.UserAgent ∧
  Behavebio.ValidUTF8 r.FieldName ∧ Behavebio.ValidUTF8 r.FieldType ∧
  Behavebio.ValidUTF8 r.DeviceType

/-- The members the scanner finds in the text `structEncode` writes for the
given fields: one for every field that is not empty, its value the body of
the string literal the encoder wrote. -/
def membersOf (fields : List (GoString × GoString)) : List (GoString × JKind) :=
  (fields.filter fun f => f.2.length ≠ 0).map fun f =>
    (f.1, JKind.string (appendStringLoop f.2.length f.2))

/-- The decoder on the member that `structEncode` writes for one field: none
for an empty field. -/
def stepField (st : Request × Option GoError) (f : GoString × GoString) :
    Request × Option GoError :=
  if f.2.length ≠ 0 then decodeMember st (f.1, JKind.string (appendStringLoop f.2.length f.2))
  else st

/-! ## Fixtures -/

/-- A client with the given application id and key whose transport methods
fail; `IsSignatureValid` reads only the id and the key. -/
def fixtureClient (appID appKey : String) : Client :=
  ⟨str appID, str appKey, fun _ => (none, some ⟨"no transport"⟩),
    fun _ _ => (none, some ⟨"no transport"⟩), fun _ _ => (none, some ⟨"no transport"⟩),
    fun _ => (none, some ⟨"no transport"⟩)⟩

/-- An HTTP response carrying the two signature headers. -/
def fixtureHTTPResponse (date signature : String) : HTTPResponse :=
  ⟨200, [(str "X-Sa-Date", [str date]), (str "X-Sa-Signature", [str signature])], none⟩

/-- A `Response` with the given raw body whose HTTP response carries the two
signature headers. -/
def fixtureResponse (date signature body : String) : Response :=
  { Response.zero with
    RawJSON := str body
    HTTPResponse := some (fixtureHTTPResponse date signature) }

/-- A client whose `Do` answers every request with status 200, the two
signature headers and the given body. -/
def cannedClient (body : String) : Client :=
  ⟨str "id", str "ab",
    fun ep => (some ⟨str "GET", ep, [], []⟩, none),
    fun ep js => (some ⟨str "POST", ep, [], js⟩, none),
    fun ep js => (some ⟨str "PUT", ep, [], js⟩, none),
    fun _ => (some ⟨200, [], some ⟨str body, none⟩⟩, none)⟩

/-- A decoder that accepts every body and stores its text as the status. -/
def cannedDecoder : ResponseDecoder := fun body target => ({ target with Status := body }, none)

/-- A decoder that rejects every body. -/
def failingDecoder : ResponseDecoder :=
  fun _ target => (target, some ⟨"invalid character"⟩)

/-! # Theorems -/

set_option maxRecDepth 100000

/-! ## Helper lemmas: buffer, digest lengths, HMAC object, hex -/

theorem signedString_eq (d a b : GoString) :
    signedString d a b = d ++ str "\n" ++ a ++ str "\n" ++ b := by
  simp only [signedString, Buffer.WriteString, Buffer.String, Buffer.empty, List.nil_append]

theorem signedString_date_ne (d d' a b : GoString) (hne : d' ≠ d) :
    signedString d' a b ≠ signedString d a b := by
  intro heq
  rw [signedString_eq, signedString_eq] at heq
  simp only [List.append_assoc] at heq
  exact hne (List.append_cancel_right heq)

theorem signedString_appID_ne (d a a' b : GoString) (hne : a' ≠ a) :
    signedString d a' b ≠ signedString d a b := by
  intro heq
  rw [signedString_eq, signedString_eq] at heq
  simp only [List.append_assoc] at heq
  exact hne (List.append_cancel_right (List.append_cancel_left (List.append_cancel_left heq)))

theorem signedString_body_ne (d a b b' : GoString) (hne : b' ≠ b) :
    signedString d a b' ≠ signedString d a b := by
  intro heq
  rw [signedString_eq, signedString_eq] at heq
  exact hne (List.append_cancel_left heq)

theorem be32_length (x : Nat) : (be32 x).length = 4 := rfl

theorem sum256_length (m : GoString) : (sum256 m).length = 32 := by
  simp only [sum256, List.length_append, be32_length]

theorem base64StdEncode_length (l : GoString) :
    (base64StdEncode l).length = 4 * ((l.length + 2) / 3) := by
  induction l using base64StdEncode.induct with
  | case1 => rfl
  | case2 b0 => simp only [base64StdEncode, List.length_cons, List.length_nil]
  | case3 b0 b1 => simp only [base64StdEncode, List.length_cons, List.length_nil]
  | case4 b0 b1 b2 rest ih =>
    simp only [base64StdEncode, List.length_cons, ih]
    omega

theorem hmac_object_generic (h : Unit → Hash) (H : GoString → GoString) (B : Nat)
    (hh : h () = ⟨H, B, []⟩) (hlen : ∀ m, (H m).length ≤ B) (key text : GoString) :
    ((hmacNew h key).Write text).Sum [] = hmacRFC2104 H B key text := by
  have htake : ∀ k : GoString, k.length ≤ B → k.take B = k :=
    fun k hk => List.take_of_length_le hk
  by_cases hk : B < key.length
  · simp only [hmacNew, hh, HMAC.Write, HMAC.Sum, hmacRFC2104, Hash.Write, Hash.Sum,
      Hash.Reset, Hash.BlockSize, xorPad, hk, if_true, htake _ (hlen _),
      List.nil_append, List.length_nil, List.drop_zero, List.take_zero]
  · have hle : key.length ≤ B := Nat.le_of_not_lt hk
    simp only [hmacNew, hh, HMAC.Write, HMAC.Sum, hmacRFC2104, Hash.Write, Hash.Sum,
      Hash.Reset, Hash.BlockSize, xorPad, hk, if_false, htake _ hle,
      List.nil_append, List.length_nil, List.drop_zero, List.take_zero]

theorem hmac_object_eq_reference (key text : GoString) :
    ((hmacNew sha256New key).Write text).Sum [] = hmacSHA256 key text :=
  hmac_object_generic sha256New sum256 64 rfl
    (fun m => by rw [sum256_length]; decide) key text

theorem hmacSHA256_length (key text : GoString) : (hmacSHA256 key text).length = 32 := by
  unfold hmacSHA256 hmacRFC2104
  exact sum256_length _

theorem computedSig_eq (d a b k : GoString) :
    computedSig d a b k =
      base64StdEncode (hmacSHA256 (hexDecodeString k).1 (d ++ str "\n" ++ a ++ str "\n" ++ b)) := by
  unfold computedSig
  rw [hmac_object_eq_reference, signedString_eq]

theorem computedSig_length (d a b k : GoString) : (computedSig d a b k).length = 44 := by
  rw [computedSig_eq, base64StdEncode_length, hmacSHA256_length]

theorem IsSignatureValid_eq (r : Response) (c : Client) (h : HTTPResponse)
    (hr : r.HTTPResponse = some h) :
    IsSignatureValid r c = .returned (decide (computedSig (h.Header.Get (str "X-SA-DATE")) c.AppID
      r.RawJSON c.AppKey = h.Header.Get (str "X-SA-SIGNATURE")), none) := by
  unfold IsSignatureValid computedSig signedString
  rw [hr]
  dsimp only
  generalize base64StdEncode _ = x
  generalize Header.Get h.Header (str "X-SA-SIGNATURE") = y
  by_cases hxy : x = y
  · rw [decide_eq_true hxy, if_neg (not_not.mpr hxy)]
  · rw [decide_eq_false hxy, if_pos hxy]

theorem fromHexChar_of_isHexDigit (c : Byte) (h : isHexDigit c = true) :
    fromHexChar c = some (hexDigitValue c) := by
  simp only [isHexDigit, Bool.or_eq_true, Bool.and_eq_true, decide_eq_true_eq] at h
  unfold fromHexChar hexDigitValue
  rcases h with (⟨h1, h2⟩ | ⟨h1, h2⟩) | ⟨h1, h2⟩
  · rw [if_pos ⟨h1, h2⟩, if_pos h2]
  · have n1 : ¬ (48 ≤ c.val ∧ c.val ≤ 57) := by omega
    have n2 : ¬ c.val ≤ 57 := by omega
    have n3 : ¬ c.val ≤ 70 := by omega
    rw [if_neg n1, if_pos ⟨h1, h2⟩, if_neg n2, if_neg n3]
    congr 1
    omega
  · have n1 : ¬ (48 ≤ c.val ∧ c.val ≤ 57) := by omega
    have n2 : ¬ (97 ≤ c.val ∧ c.val ≤ 102) := by omega
    have n3 : ¬ c.val ≤ 57 := by omega
    rw [if_neg n1, if_neg n2, if_pos ⟨h1, h2⟩, if_neg n3, if_pos h2]
    congr 1
    omega

theorem hexDecodeString_of_validHex (s : GoString) (h : validHex s = true) :
    hexDecodeString s = (hexdecode s, none) := by
  induction s using hexdecode.induct with
  | case1 p q rest ih =>
    simp only [validHex, List.length_cons, List.all_cons, Bool.and_eq_true, beq_iff_eq] at h
    obtain ⟨hlen, hp, hq, hrest⟩ := h
    have hr : validHex rest = true := by
      simp only [validHex, Bool.and_eq_true, beq_iff_eq]
      exact ⟨by omega, hrest⟩
    simp only [hexDecodeString, fromHexChar_of_isHexDigit p hp, fromHexChar_of_isHexDigit q hq,
      ih hr, hexdecode, Nat.mul_comm 16]
  | case2 s hs =>
    match s, hs with
    | [], _ => rfl
    | [p], _ =>
      simp only [validHex, List.length_cons, List.length_nil, Bool.and_eq_true, beq_iff_eq] at h
      omega
    | p :: q :: rest, hs => exact absurd rfl (hs p q rest)

/-! ## Known answers of the library models -/

/-- The digest of `abc` (FIPS 180-4, appendix B.1). -/
theorem sum256_abc :
    sum256 (str "abc") =
      [0xba, 0x78, 0x16, 0xbf, 0x8f, 0x01, 0xcf, 0xea, 0x41, 0x41, 0x40, 0xde, 0x5d, 0xae, 0x22, 0x23,
       0xb0, 0x03, 0x61, 0xa3, 0x96, 0x17, 0x7a, 0x9c, 0xb4, 0x10, 0xff, 0x61, 0xf2, 0x00, 0x15, 0xad] := by
  decide

/-- The second test case of RFC 4231. -/
theorem hmacSHA256_rfc4231_case2 :
    hmacSHA256 (str "Jefe") (str "what do ya want for nothing?") =
      [0x5b, 0xdc, 0xc1, 0x46, 0xbf, 0x60, 0x75, 0x4e, 0x6a, 0x04, 0x24, 0x26, 0x08, 0x95, 0x75, 0xc7,
       0x5a, 0x00, 0x3f, 0x08, 0x9d, 0x27, 0x39, 0x83, 0x9d, 0xec, 0x58, 0xb9, 0x64, 0xec, 0x38, 0x43] := by
  decide

/-- The test vectors of RFC 4648, section 10. -/
theorem base64StdEncode_rfc4648 :
    base64StdEncode (str "f") = str "Zg==" ∧ base64StdEncode (str "fo") = str "Zm8=" ∧
    base64StdEncode (str "foo") = str "Zm9v" ∧ base64StdEncode (str "foobar") = str "Zm9vYmFy" := by
  decide

/-- The canonical forms of the two header names the package reads. -/
theorem canonical_header_names :
    CanonicalMIMEHeaderKey (str "X-SA-DATE") = str "X-Sa-Date" ∧
    CanonicalMIMEHeaderKey (str "X-SA-SIGNATURE") = str "X-Sa-Signature" := by
  decide

/-- Decoding matches keys without regard to letter case, skips unknown keys,
ignores `null`, and reports a value of the wrong kind after decoding the rest. -/
theorem jsonUnmarshalRequest_examples :
    jsonUnmarshalRequest (str "\x7b\"USERID\": \"u\", \"other\": [1, true], \"fieldName\": null\x7d")
        Request.zero = (⟨str "u", [], [], [], [], [], []⟩, none) ∧
    (jsonUnmarshalRequest (str "\x7b\"userId\": 3, \"userAgent\": \"ua\"\x7d") Request.zero).1 =
      ⟨[], [], [], str "ua", [], [], []⟩ ∧
    (jsonUnmarshalRequest (str "\x7b\"userId\": 3, \"userAgent\": \"ua\"\x7d") Request.zero).2 ≠
      none ∧
    (jsonUnmarshalRequest (str "\x7b\"userId\": \"u\",\x7d") Request.zero).2 ≠ none := by
  decide

/-! ## Helper lemmas: base64 is injective -/

theorem decodeMapStd_b64Char_fin : ∀ v : Fin 64, decodeMapStd (b64Char v.val) = v.val := by
  decide

theorem decodeMapStd_b64Char (v : Nat) : decodeMapStd (b64Char v) = v % 64 := by
  have h := decodeMapStd_b64Char_fin ⟨v % 64, Nat.mod_lt _ (by decide)⟩
  simp only [b64Char, Nat.mod_mod] at h ⊢
  exact h

theorem b64Char_inj (a b : Nat) (h : b64Char a = b64Char b) : a % 64 = b % 64 := by
  rw [← decodeMapStd_b64Char a, ← decodeMapStd_b64Char b, h]

theorem b64Char_ne_pad (v : Nat) : b64Char v ≠ 61 := by
  intro h
  have h1 := decodeMapStd_b64Char v
  rw [h] at h1
  have h2 : decodeMapStd 61 = 255 := by decide
  have h3 : v % 64 < 64 := Nat.mod_lt _ (by decide)
  omega

theorem pad_ne_b64Char (v : Nat) : (61 : Byte) ≠ b64Char v := fun h => b64Char_ne_pad v h.symm

theorem base64StdEncode_ne_nil (l : GoString) (h : l ≠ []) : base64StdEncode l ≠ [] := by
  intro h0
  have hl := base64StdEncode_length l
  rw [h0] at hl
  cases l with
  | nil => exact h rfl
  | cons a t => simp only [List.length_nil, List.length_cons] at hl; omega

theorem base64StdEncode_injective : ∀ l l' : GoString,
    base64StdEncode l = base64StdEncode l' → l = l' := by
  intro l
  induction l using base64StdEncode.induct with
  | case1 =>
    intro l' h
    by_contra hne
    exact base64StdEncode_ne_nil l' (fun e => hne e.symm) h.symm
  | case2 b0 =>
    intro l' h
    rcases l' with _ | ⟨c0, _ | ⟨c1, _ | ⟨c2, rest'⟩⟩⟩
    · exact absurd h (base64StdEncode_ne_nil _ (by simp))
    · simp only [base64StdEncode, List.cons.injEq, and_true, Nat.shiftRight_eq_div_pow] at h
      have h1 := b64Char_inj _ _ h.1
      have h2 := b64Char_inj _ _ h.2
      have := b0.isLt
      have := c0.isLt
      congr 1
      apply Fin.ext
      omega
    · simp only [base64StdEncode, List.cons.injEq, and_true] at h
      exact absurd h.2.2 (pad_ne_b64Char _)
    · simp only [base64StdEncode, List.cons.injEq] at h
      exact absurd h.2.2.1 (pad_ne_b64Char _)
  | case3 b0 b1 =>
    intro l' h
    rcases l' with _ | ⟨c0, _ | ⟨c1, _ | ⟨c2, rest'⟩⟩⟩
    · exact absurd h (base64StdEncode_ne_nil _ (by simp))
    · simp only [base64StdEncode, List.cons.injEq, and_true] at h
      exact absurd h.2.2 (b64Char_ne_pad _)
    · simp only [base64StdEncode, List.cons.injEq, and_true, Nat.shiftRight_eq_div_pow] at h
      have h1 := b64Char_inj _ _ h.1
      have h2 := b64Char_inj _ _ h.2.1
      have h3 := b64Char_inj _ _ h.2.2
      have := b0.isLt
      have := c0.isLt
      have := b1.isLt
      have := c1.isLt
      have e0 : b0 = c0 := Fin.ext (by omega)
      have e1 : b1 = c1 := Fin.ext (by omega)
      rw [e0, e1]
    · simp only [base64StdEncode, List.cons.injEq] at h
      exact absurd h.2.2.2.1 (pad_ne_b64Char _)
  | case4 b0 b1 b2 rest ih =>
    intro l' h
    rcases l' with _ | ⟨c0, _ | ⟨c1, _ | ⟨c2, rest'⟩⟩⟩
    · exact absurd h (base64StdEncode_ne_nil _ (by simp))
    · simp only [base64StdEncode, List.cons.injEq] at h
      exact absurd h.2.2.1 (b64Char_ne_pad _)
    · simp only [base64StdEncode, List.cons.injEq] at h
      exact absurd h.2.2.2.1 (b64Char_ne_pad _)
    · simp only [base64StdEncode, List.cons.injEq, Nat.shiftRight_eq_div_pow] at h
      have h1 := b64Char_inj _ _ h.1
      have h2 := b64Char_inj _ _ h.2.1
      have h3 := b64Char_inj _ _ h.2.2.1
      have h4 := b64Char_inj _ _ h.2.2.2.1
      have hr := ih rest' h.2.2.2.2
      have := b0.isLt
      have := c0.isLt
      have := b1.isLt
      have := c1.isLt
      have := b2.isLt
      have := c2.isLt
      have e0 : b0 = c0 := Fin.ext (by omega)
      have e1 : b1 = c1 := Fin.ext (by omega)
      have e2 : b2 = c2 := Fin.ext (by omega)
      rw [e0, e1, e2, hr]

/-! ## The signature check -/

theorem returned_decide_true (P : Prop) [Decidable P] :
    (Outcome.returned (decide P, (none : Option GoError)) = .returned (true, none)) ↔ P := by
  by_cases hp : P
  · rw [decide_eq_true hp]; exact ⟨fun _ => hp, fun _ => rfl⟩
  · rw [decide_eq_false hp]
    exact ⟨fun h => (by cases h), fun h => absurd h hp⟩

theorem returned_decide_false (P : Prop) [Decidable P] :
    (Outcome.returned (decide P, (none : Option GoError)) = .returned (false, none)) ↔ ¬ P := by
  by_cases hp : P
  · rw [decide_eq_true hp]
    exact ⟨fun h => (by cases h), fun h => absurd hp h⟩
  · rw [decide_eq_false hp]; exact ⟨fun _ => hp, fun _ => rfl⟩

/-- C1: for a Response whose HTTPResponse is not nil and a client whose AppKey
is a valid hex string, `IsSignatureValid` returns true exactly when the value
of the X-SA-SIGNATURE header equals the standard base64 encoding of
HMAC-SHA256, keyed with the bytes the AppKey denotes, of the X-SA-DATE value,
a newline, the AppID, a newline and RawJSON; otherwise it returns false. -/
theorem C1_isSignatureValid_iff_reference (r : Response) (c : Client) (h : HTTPResponse)
    (hr : r.HTTPResponse = some h) (hk : validHex c.AppKey = true) :
    (IsSignatureValid r c = .returned (true, none) ↔
      h.Header.Get (str "X-SA-SIGNATURE") =
        base64StdEncode (hmacSHA256 (hexdecode c.AppKey)
          (h.Header.Get (str "X-SA-DATE") ++ str "\n" ++ c.AppID ++ str "\n" ++ r.RawJSON))) ∧
    (IsSignatureValid r c = .returned (false, none) ↔
      h.Header.Get (str "X-SA-SIGNATURE") ≠
        base64StdEncode (hmacSHA256 (hexdecode c.AppKey)
          (h.Header.Get (str "X-SA-DATE") ++ str "\n" ++ c.AppID ++ str "\n" ++ r.RawJSON))) := by
  have hdec : (hexDecodeString c.AppKey).1 = hexdecode c.AppKey := by
    rw [hexDecodeString_of_validHex _ hk]
  rw [IsSignatureValid_eq r c h hr, computedSig_eq, hdec, returned_decide_true,
    returned_decide_false]
  exact ⟨eq_comm, not_congr eq_comm⟩

/-- Witness of C1: a response signed with the key `ab`. -/
theorem C1_witness :
    (fixtureResponse "Mon, 02 Jan 2017 15:04:05 GMT"
        "MNNxmhPc25dEq2jLuzpT3d0iFan0gp5YfRhAsdSVikQ=" "status-ok").HTTPResponse =
      some (fixtureHTTPResponse "Mon, 02 Jan 2017 15:04:05 GMT"
        "MNNxmhPc25dEq2jLuzpT3d0iFan0gp5YfRhAsdSVikQ=") ∧
    validHex (fixtureClient "id" "ab").AppKey = true ∧
    (IsSignatureValid (fixtureResponse "Mon, 02 Jan 2017 15:04:05 GMT"
        "MNNxmhPc25dEq2jLuzpT3d0iFan0gp5YfRhAsdSVikQ=" "status-ok") (fixtureClient "id" "ab") =
        .returned (true, none) ↔
      (fixtureHTTPResponse "Mon, 02 Jan 2017 15:04:05 GMT"
        "MNNxmhPc25dEq2jLuzpT3d0iFan0gp5YfRhAsdSVikQ=").Header.Get (str "X-SA-SIGNATURE") =
        base64StdEncode (hmacSHA256 (hexdecode (fixtureClient "id" "ab").AppKey)
          ((fixtureHTTPResponse "Mon, 02 Jan 2017 15:04:05 GMT"
            "MNNxmhPc25dEq2jLuzpT3d0iFan0gp5YfRhAsdSVikQ=").Header.Get (str "X-SA-DATE") ++
            str "\n" ++ (fixtureClient "id" "ab").AppID ++ str "\n" ++
            (fixtureResponse "Mon, 02 Jan 2017 15:04:05 GMT"
              "MNNxmhPc25dEq2jLuzpT3d0iFan0gp5YfRhAsdSVikQ=" "status-ok").RawJSON))) :=
  ⟨rfl, by decide, (C1_isSignatureValid_iff_reference _ _ _ rfl (by decide)).1⟩

/-- C2: for a Response whose HTTPResponse is not nil and any client,
`IsSignatureValid` returns a nil error; a computed signature that differs from
the header is reported as `(false, nil)`. -/
theorem C2_isSignatureValid_error_nil (r : Response) (c : Client) (h : HTTPResponse)
    (hr : r.HTTPResponse = some h) :
    (∃ b : Bool, IsSignatureValid r c = .returned (b, none)) ∧
    (computedSig (h.Header.Get (str "X-SA-DATE")) c.AppID r.RawJSON c.AppKey ≠
        h.Header.Get (str "X-SA-SIGNATURE") →
      IsSignatureValid r c = .returned (false, none)) := by
  rw [IsSignatureValid_eq r c h hr]
  exact ⟨⟨_, rfl⟩, fun hne => (returned_decide_false _).2 hne⟩

/-- Witness of C2: a response without headers and a client whose key is not
hexadecimal. -/
theorem C2_witness :
    ({ Response.zero with HTTPResponse := some ⟨200, [], none⟩ } : Response).HTTPResponse =
      some ⟨200, [], none⟩ ∧
    validHex (fixtureClient "id" "zz").AppKey = false ∧
    ∃ b : Bool, IsSignatureValid { Response.zero with HTTPResponse := some ⟨200, [], none⟩ }
      (fixtureClient "id" "zz") = .returned (b, none) :=
  ⟨rfl, by decide, (C2_isSignatureValid_error_nil _ _ _ rfl).1⟩

/-- C9: the computed signature is the standard base64 encoding of a 32-byte
HMAC-SHA256 digest and is 44 bytes long, so `IsSignatureValid` returns false
whenever the X-SA-SIGNATURE value is not 44 bytes long, in particular when
the header is absent, whatever the date, AppID, AppKey and RawJSON are. -/
theorem C9_isSignatureValid_false_of_length (r : Response) (c : Client) (h : HTTPResponse)
    (hr : r.HTTPResponse = some h) :
    (∃ digest : GoString, digest.length = 32 ∧
      computedSig (h.Header.Get (str "X-SA-DATE")) c.AppID r.RawJSON c.AppKey =
        base64StdEncode digest ∧
      (computedSig (h.Header.Get (str "X-SA-DATE")) c.AppID r.RawJSON c.AppKey).length = 44) ∧
    ((h.Header.Get (str "X-SA-SIGNATURE")).length ≠ 44 →
      IsSignatureValid r c = .returned (false, none)) ∧
    (h.Header.lookup (CanonicalMIMEHeaderKey (str "X-SA-SIGNATURE")) = none →
      h.Header.Get (str "X-SA-SIGNATURE") = [] ∧
      IsSignatureValid r c = .returned (false, none)) := by
  have hlen := computedSig_length (h.Header.Get (str "X-SA-DATE")) c.AppID r.RawJSON c.AppKey
  have hfalse : (h.Header.Get (str "X-SA-SIGNATURE")).length ≠ 44 →
      IsSignatureValid r c = .returned (false, none) := by
    intro hne
    rw [IsSignatureValid_eq r c h hr, returned_decide_false]
    intro heq
    rw [← heq] at hne
    exact hne hlen
  refine ⟨⟨_, hmacSHA256_length _ _, computedSig_eq _ _ _ _, hlen⟩, hfalse, ?_⟩
  intro hnone
  have hget : h.Header.Get (str "X-SA-SIGNATURE") = [] := by
    unfold Header.Get
    rw [hnone]
  refine ⟨hget, hfalse ?_⟩
  rw [hget]
  decide

/-- Witness of C9: a response without any header. -/
theorem C9_witness :
    ({ Response.zero with HTTPResponse := some ⟨200, [], none⟩ } : Response).HTTPResponse =
      some ⟨200, [], none⟩ ∧
    (Header.Get [] (str "X-SA-SIGNATURE")).length ≠ 44 ∧
    IsSignatureValid { Response.zero with HTTPResponse := some ⟨200, [], none⟩ }
      (fixtureClient "id" "ab") = .returned (false, none) :=
  ⟨rfl, by decide,
    (C9_isSignatureValid_false_of_length _ (fixtureClient "id" "ab") ⟨200, [], none⟩ rfl).2.1
      (by decide)⟩

/-- C10: the signed string is not an injective encoding of the triple of the
date, the AppID and the body. The triples `("a\nb", "c", body)` and
`("a", "b\nc", body)` differ in two components and have the same signed
string, so `IsSignatureValid` gives the same result on both for every key and
signature header; changing exactly one component always changes the signed
string. -/
theorem C10_signedString_not_injective :
    (str "a\nb" ≠ str "a" ∧ str "c" ≠ str "b\nc" ∧
      ∀ body : GoString,
        signedString (str "a\nb") (str "c") body = signedString (str "a") (str "b\nc") body) ∧
    (∀ (r r' : Response) (c c' : Client) (h h' : HTTPResponse),
      r.HTTPResponse = some h → r'.HTTPResponse = some h' →
      h.Header.Get (str "X-SA-DATE") = str "a\nb" → c.AppID = str "c" →
      h'.Header.Get (str "X-SA-DATE") = str "a" → c'.AppID = str "b\nc" →
      r'.RawJSON = r.RawJSON → c'.AppKey = c.AppKey →
      h'.Header.Get (str "X-SA-SIGNATURE") = h.Header.Get (str "X-SA-SIGNATURE") →
      IsSignatureValid r' c' = IsSignatureValid r c) ∧
    (∀ d d' a b : GoString, d' ≠ d → signedString d' a b ≠ signedString d a b) ∧
    (∀ d a a' b : GoString, a' ≠ a → signedString d a' b ≠ signedString d a b) ∧
    (∀ d a b b' : GoString, b' ≠ b → signedString d a b' ≠ signedString d a b) := by
  have hcoll : ∀ body : GoString,
      signedString (str "a\nb") (str "c") body = signedString (str "a") (str "b\nc") body := by
    intro body
    rw [signedString_eq, signedString_eq]
    have e1 : str "a\nb" = str "a" ++ str "\n" ++ str "b" := by decide
    have e2 : str "b\nc" = str "b" ++ str "\n" ++ str "c" := by decide
    rw [e1, e2]
    simp only [List.append_assoc]
  refine ⟨⟨by decide, by decide, hcoll⟩, ?_, ?_, ?_, ?_⟩
  · intro r r' c c' h h' hr hr' hd ha hd' ha' hj hk hs
    rw [IsSignatureValid_eq r c h hr, IsSignatureValid_eq r' c' h' hr', hd, ha, hd', ha', hj, hk,
      hs]
    unfold computedSig
    rw [hcoll]
  · exact signedString_date_ne
  · exact signedString_appID_ne
  · exact signedString_body_ne

/-- Witness of C10: two responses and clients that differ in the date and in
the AppID and are signed alike. -/
theorem C10_witness :
    (fixtureResponse "a\nb" "sig" "body").HTTPResponse = some (fixtureHTTPResponse "a\nb" "sig") ∧
    (fixtureResponse "a" "sig" "body").HTTPResponse = some (fixtureHTTPResponse "a" "sig") ∧
    IsSignatureValid (fixtureResponse "a" "sig" "body") (fixtureClient "b\nc" "ab") =
      IsSignatureValid (fixtureResponse "a\nb" "sig" "body") (fixtureClient "c" "ab") ∧
    str "x" ≠ str "a" ∧
    signedString (str "x") (str "c") (str "body") ≠ signedString (str "a") (str "c") (str "body") :=
  ⟨rfl, rfl,
    C10_signedString_not_injective.2.1 (fixtureResponse "a\nb" "sig" "body")
      (fixtureResponse "a" "sig" "body") (fixtureClient "c" "ab") (fixtureClient "b\nc" "ab")
      (fixtureHTTPResponse "a\nb" "sig") (fixtureHTTPResponse "a" "sig") rfl rfl
      (by decide) (by decide) (by decide) (by decide) rfl rfl (by decide),
    by decide,
    C10_signedString_not_injective.2.2.1 (str "a") (str "x") (str "c") (str "body") (by decide)⟩

/-- Counterexample to C3: the response verifies under the AppKey `ab`, and
replacing only the AppKey by the different value `AB` leaves the result true,
because both keys denote the same byte. -/
theorem C3_counterexample :
    IsSignatureValid
        (fixtureResponse "Mon, 02 Jan 2017 15:04:05 GMT"
          "MNNxmhPc25dEq2jLuzpT3d0iFan0gp5YfRhAsdSVikQ=" "status-ok")
        (fixtureClient "id" "ab") = .returned (true, none) ∧
    (fixtureClient "id" "AB").AppKey ≠ (fixtureClient "id" "ab").AppKey ∧
    (fixtureClient "id" "AB").AppID = (fixtureClient "id" "ab").AppID ∧
    IsSignatureValid
        (fixtureResponse "Mon, 02 Jan 2017 15:04:05 GMT"
          "MNNxmhPc25dEq2jLuzpT3d0iFan0gp5YfRhAsdSVikQ=" "status-ok")
        (fixtureClient "id" "AB") = .returned (true, none) := by
  refine ⟨by decide, by decide, by decide, by decide⟩

/-- C3, amended: let `IsSignatureValid` return true on some inputs. Replacing
only the X-SA-SIGNATURE value by a different one makes it return false.
Replacing exactly one of the date, the AppID and RawJSON by a different value
changes the signed string, and the result is then false exactly when the
HMAC-SHA256 digest of the new signed string differs from that of the old one.
Replacing only the AppKey gives false exactly when the digest under the bytes
decoded from the new key differs from the digest under the old ones, so keys
that decode to the same bytes still verify. Identical inputs give identical
results. -/
theorem C3_single_replacement (r r' : Response) (c c' : Client) (h h' : HTTPResponse)
    (hr : r.HTTPResponse = some h) (hr' : r'.HTTPResponse = some h')
    (hv : IsSignatureValid r c = .returned (true, none)) :
    (h'.Header.Get (str "X-SA-DATE") = h.Header.Get (str "X-SA-DATE") →
      c'.AppID = c.AppID → r'.RawJSON = r.RawJSON → c'.AppKey = c.AppKey →
      h'.Header.Get (str "X-SA-SIGNATURE") ≠ h.Header.Get (str "X-SA-SIGNATURE") →
      IsSignatureValid r' c' = .returned (false, none)) ∧
    (h'.Header.Get (str "X-SA-SIGNATURE") = h.Header.Get (str "X-SA-SIGNATURE") →
      c'.AppKey = c.AppKey →
      ((h'.Header.Get (str "X-SA-DATE") ≠ h.Header.Get (str "X-SA-DATE") ∧
          c'.AppID = c.AppID ∧ r'.RawJSON = r.RawJSON) ∨
        (h'.Header.Get (str "X-SA-DATE") = h.Header.Get (str "X-SA-DATE") ∧
          c'.AppID ≠ c.AppID ∧ r'.RawJSON = r.RawJSON) ∨
        (h'.Header.Get (str "X-SA-DATE") = h.Header.Get (str "X-SA-DATE") ∧
          c'.AppID = c.AppID ∧ r'.RawJSON ≠ r.RawJSON)) →
      signedString (h'.Header.Get (str "X-SA-DATE")) c'.AppID r'.RawJSON ≠
        signedString (h.Header.Get (str "X-SA-DATE")) c.AppID r.RawJSON ∧
      (IsSignatureValid r' c' = .returned (false, none) ↔
        hmacSHA256 (hexDecodeString c.AppKey).1
            (signedString (h'.Header.Get (str "X-SA-DATE")) c'.AppID r'.RawJSON) ≠
          hmacSHA256 (hexDecodeString c.AppKey).1
            (signedString (h.Header.Get (str "X-SA-DATE")) c.AppID r.RawJSON))) ∧
    (h'.Header.Get (str "X-SA-SIGNATURE") = h.Header.Get (str "X-SA-SIGNATURE") →
      h'.Header.Get (str "X-SA-DATE") = h.Header.Get (str "X-SA-DATE") →
      c'.AppID = c.AppID → r'.RawJSON = r.RawJSON →
      ((IsSignatureValid r' c' = .returned (false, none) ↔
        hmacSHA256 (hexDecodeString c'.AppKey).1
            (signedString (h.Header.Get (str "X-SA-DATE")) c.AppID r.RawJSON) ≠
          hmacSHA256 (hexDecodeString c.AppKey).1
            (signedString (h.Header.Get (str "X-SA-DATE")) c.AppID r.RawJSON)) ∧
        ((hexDecodeString c'.AppKey).1 = (hexDecodeString c.AppKey).1 →
          IsSignatureValid r' c' = .returned (true, none)))) ∧
    (h'.Header.Get (str "X-SA-SIGNATURE") = h.Header.Get (str "X-SA-SIGNATURE") →
      h'.Header.Get (str "X-SA-DATE") = h.Header.Get (str "X-SA-DATE") →
      c'.AppID = c.AppID → r'.RawJSON = r.RawJSON → c'.AppKey = c.AppKey →
      IsSignatureValid r' c' = IsSignatureValid r c) := by
  have hsig : computedSig (h.Header.Get (str "X-SA-DATE")) c.AppID r.RawJSON c.AppKey =
      h.Header.Get (str "X-SA-SIGNATURE") := by
    rw [IsSignatureValid_eq r c h hr, returned_decide_true] at hv
    exact hv
  have hcs : ∀ d a b k, computedSig d a b k =
      base64StdEncode (hmacSHA256 (hexDecodeString k).1 (signedString d a b)) := by
    intro d a b k
    rw [computedSig_eq, signedString_eq]
  refine ⟨?_, ?_, ?_, ?_⟩
  · intro hd ha hj hk hs
    rw [IsSignatureValid_eq r' c' h' hr', returned_decide_false, hd, ha, hj, hk, hsig]
    exact fun e => hs e.symm
  · intro hs hk hone
    constructor
    · rcases hone with ⟨hd, ha, hj⟩ | ⟨hd, ha, hj⟩ | ⟨hd, ha, hj⟩
      · rw [ha, hj]
        exact signedString_date_ne _ _ _ _ hd
      · rw [hd, hj]
        exact signedString_appID_ne _ _ _ _ ha
      · rw [hd, ha]
        exact signedString_body_ne _ _ _ _ hj
    · rw [IsSignatureValid_eq r' c' h' hr', returned_decide_false, hs, ← hsig, hk, hcs, hcs]
      exact not_congr ⟨fun e => base64StdEncode_injective _ _ e, fun e => by rw [e]⟩
  · intro hs hd ha hj
    have hiff : IsSignatureValid r' c' = .returned (true, none) ↔
        hmacSHA256 (hexDecodeString c'.AppKey).1
            (signedString (h.Header.Get (str "X-SA-DATE")) c.AppID r.RawJSON) =
          hmacSHA256 (hexDecodeString c.AppKey).1
            (signedString (h.Header.Get (str "X-SA-DATE")) c.AppID r.RawJSON) := by
      rw [IsSignatureValid_eq r' c' h' hr', returned_decide_true, hs, ← hsig, hd, ha, hj, hcs, hcs]
      exact ⟨fun e => base64StdEncode_injective _ _ e, fun e => by rw [e]⟩
    constructor
    · rw [IsSignatureValid_eq r' c' h' hr', returned_decide_false, hs, ← hsig, hd, ha, hj, hcs,
        hcs]
      exact not_congr ⟨fun e => base64StdEncode_injective _ _ e, fun e => by rw [e]⟩
    · intro hkey
      rw [hiff, hkey]
  · intro hs hd ha hj hk
    rw [IsSignatureValid_eq r' c' h' hr', IsSignatureValid_eq r c h hr, hs, hd, ha, hj, hk]

/-- Witness of C3: a response that verifies, and the same response with
another X-SA-SIGNATURE value. -/
theorem C3_witness :
    IsSignatureValid
        (fixtureResponse "Mon, 02 Jan 2017 15:04:05 GMT"
          "MNNxmhPc25dEq2jLuzpT3d0iFan0gp5YfRhAsdSVikQ=" "status-ok")
        (fixtureClient "id" "ab") = .returned (true, none) ∧
    (fixtureHTTPResponse "Mon, 02 Jan 2017 15:04:05 GMT" "forged").Header.Get
        (str "X-SA-SIGNATURE") ≠
      (fixtureHTTPResponse "Mon, 02 Jan 2017 15:04:05 GMT"
        "MNNxmhPc25dEq2jLuzpT3d0iFan0gp5YfRhAsdSVikQ=").Header.Get (str "X-SA-SIGNATURE") ∧
    IsSignatureValid (fixtureResponse "Mon, 02 Jan 2017 15:04:05 GMT" "forged" "status-ok")
      (fixtureClient "id" "ab") = .returned (false, none) :=
  ⟨by decide, by decide,
    (C3_single_replacement
      (fixtureResponse "Mon, 02 Jan 2017 15:04:05 GMT"
        "MNNxmhPc25dEq2jLuzpT3d0iFan0gp5YfRhAsdSVikQ=" "status-ok")
      (fixtureResponse "Mon, 02 Jan 2017 15:04:05 GMT" "forged" "status-ok")
      (fixtureClient "id" "ab") (fixtureClient "id" "ab")
      (fixtureHTTPResponse "Mon, 02 Jan 2017 15:04:05 GMT"
        "MNNxmhPc25dEq2jLuzpT3d0iFan0gp5YfRhAsdSVikQ=")
      (fixtureHTTPResponse "Mon, 02 Jan 2017 15:04:05 GMT" "forged") rfl rfl (by decide)).1
      (by decide) rfl rfl rfl (by decide)⟩

/-! ## Digests collide -/

/-- A function from byte strings to byte strings of one fixed length takes the
same value on two different arguments: there are infinitely many arguments and
finitely many values. -/
theorem fixed_length_collision (g : GoString → GoString) (n : Nat)
    (hg : ∀ x, (g x).length = n) : ∃ x y, x ≠ y ∧ g x = g y := by
  haveI : Finite { l : List Byte // l.length = n } :=
    inferInstanceAs (Finite (Mathlib.Vector Byte n))
  obtain ⟨x, y, hne, heq⟩ := Finite.exists_ne_map_eq_of_infinite
    (fun x => (⟨g x, hg x⟩ : { l : List Byte // l.length = n }))
  exact ⟨x, y, hne, congrArg Subtype.val heq⟩

theorem fixtureHeader_get (date signature : GoString) :
    Header.Get [(str "X-Sa-Date", [date]), (str "X-Sa-Signature", [signature])]
        (str "X-SA-DATE") = date ∧
    Header.Get [(str "X-Sa-Date", [date]), (str "X-Sa-Signature", [signature])]
        (str "X-SA-SIGNATURE") = signature := by
  have h1 : CanonicalMIMEHeaderKey (str "X-SA-DATE") = str "X-Sa-Date" := by decide
  have h2 : CanonicalMIMEHeaderKey (str "X-SA-SIGNATURE") = str "X-Sa-Signature" := by decide
  have h3 : (str "X-Sa-Date" == str "X-Sa-Date") = true := by decide
  have h4 : (str "X-Sa-Signature" == str "X-Sa-Date") = false := by decide
  have h5 : (str "X-Sa-Signature" == str "X-Sa-Signature") = true := by decide
  constructor
  · rw [Header.Get, h1, List.lookup, h3]
  · rw [Header.Get, h2, List.lookup, h4]
    simp only
    rw [List.lookup, h5]

/-- For every client and date there are two different bodies and a signature
under which both verify: changing only RawJSON need not make
`IsSignatureValid` return false. The two bodies are not exhibited; they exist
because HMAC-SHA256 has finitely many values. -/
theorem isSignatureValid_body_collision (c : Client) (date : GoString) :
    ∃ body body' signature : GoString, body ≠ body' ∧
      IsSignatureValid
        { Response.zero with
          RawJSON := body
          HTTPResponse := some
            ⟨200, [(str "X-Sa-Date", [date]), (str "X-Sa-Signature", [signature])], none⟩ } c =
        .returned (true, none) ∧
      IsSignatureValid
        { Response.zero with
          RawJSON := body'
          HTTPResponse := some
            ⟨200, [(str "X-Sa-Date", [date]), (str "X-Sa-Signature", [signature])], none⟩ } c =
        .returned (true, none) := by
  obtain ⟨x, y, hne, heq⟩ := fixed_length_collision
    (fun b => hmacSHA256 (hexDecodeString c.AppKey).1 (date ++ str "\n" ++ c.AppID ++ str "\n" ++ b))
    32 (fun b => hmacSHA256_length _ _)
  refine ⟨x, y, computedSig date c.AppID x c.AppKey, hne, ?_, ?_⟩
  · rw [IsSignatureValid_eq _ c _ rfl, returned_decide_true]
    dsimp only
    rw [(fixtureHeader_get _ _).1, (fixtureHeader_get _ _).2]
  · rw [IsSignatureValid_eq _ c _ rfl, returned_decide_true]
    dsimp only
    rw [(fixtureHeader_get _ _).1, (fixtureHeader_get _ _).2, computedSig_eq, computedSig_eq]
    exact congrArg base64StdEncode heq.symm

/-! ## The executors -/

theorem finish_spec (U : ResponseDecoder) (done : Option HTTPResponse × Option GoError) :
    (∀ res e, finish U done = .returned (res, some e) →
      res = none ∧
      (done.2 = some e ∨
        (∃ resp reader, done = (some resp, none) ∧ resp.Body = some reader ∧
          (ReadAll reader).2 = some e) ∨
        (∃ resp reader body, done = (some resp, none) ∧ resp.Body = some reader ∧
          ReadAll reader = (body, none) ∧ (U body Response.zero).2 = some e))) ∧
    (∀ res, finish U done = .returned (res, none) → ∃ resp, res = some resp ∧ Retains U done resp) ∧
    (∀ e, done.2 = some e → finish U done = .returned (none, some e)) ∧
    (∀ resp reader e, done = (some resp, none) → resp.Body = some reader →
      (ReadAll reader).2 = some e → finish U done = .returned (none, some e)) ∧
    (∀ resp reader body e, done = (some resp, none) → resp.Body = some reader →
      ReadAll reader = (body, none) → (U body Response.zero).2 = some e →
      finish U done = .returned (none, some e)) ∧
    (∀ resp reader, done = (some resp, none) → resp.Body = some reader →
      ∃ p, finish U done = .returned p) := by
  obtain ⟨d1, d2⟩ := done
  cases d2 with
  | some err =>
    refine ⟨?_, ?_, ?_, ?_, ?_, ?_⟩
    · intro res e hf
      simp only [finish, Outcome.returned.injEq, Prod.mk.injEq, Option.some.injEq] at hf
      exact ⟨hf.1.symm, Or.inl (by rw [hf.2])⟩
    · intro res hf
      simp only [finish, Outcome.returned.injEq, Prod.mk.injEq] at hf
      exact absurd hf.2 (by simp)
    · intro e he
      simp only [Option.some.injEq] at he
      simp only [finish, he]
    · intro resp reader e hd
      simp only [Prod.mk.injEq] at hd
      exact absurd hd.2 (by simp)
    · intro resp reader body e hd
      simp only [Prod.mk.injEq] at hd
      exact absurd hd.2 (by simp)
    · intro resp reader hd
      simp only [Prod.mk.injEq] at hd
      exact absurd hd.2 (by simp)
  | none =>
    cases d1 with
    | none =>
      refine ⟨?_, ?_, ?_, ?_, ?_, ?_⟩
      · intro res e hf
        simp only [finish] at hf
        cases hf
      · intro res hf
        simp only [finish] at hf
        cases hf
      · intro e he
        cases he
      · intro resp reader e hd
        simp only [Prod.mk.injEq] at hd
        exact absurd hd.1 (by simp)
      · intro resp reader body e hd
        simp only [Prod.mk.injEq] at hd
        exact absurd hd.1 (by simp)
      · intro resp reader hd
        simp only [Prod.mk.injEq] at hd
        exact absurd hd.1 (by simp)
    | some httpResponse =>
      cases hb : httpResponse.Body with
      | none =>
        refine ⟨?_, ?_, ?_, ?_, ?_, ?_⟩
        · intro res e hf
          simp only [finish, hb] at hf
          cases hf
        · intro res hf
          simp only [finish, hb] at hf
          cases hf
        · intro e he
          cases he
        · intro resp reader e hd hbody
          simp only [Prod.mk.injEq, Option.some.injEq, and_true] at hd
          rw [← hd, hb] at hbody
          cases hbody
        · intro resp reader body e hd hbody
          simp only [Prod.mk.injEq, Option.some.injEq, and_true] at hd
          rw [← hd, hb] at hbody
          cases hbody
        · intro resp reader hd hbody
          simp only [Prod.mk.injEq, Option.some.injEq, and_true] at hd
          rw [← hd, hb] at hbody
          cases hbody
      | some reader =>
        rcases hra : ReadAll reader with ⟨body, _ | rerr⟩
        · rcases hu : U body Response.zero with ⟨decoded, _ | uerr⟩
          · have hfin : finish U (some httpResponse, none) = .returned (some
                { decoded with
                  RawJSON := body
                  HTTPResponse := some
                    { httpResponse with Body := some (NopCloser (NewBuffer body)) } }, none) := by
              simp only [finish, hb, hra, hu]
            refine ⟨?_, ?_, ?_, ?_, ?_, ?_⟩
            · intro res e hf
              rw [hfin] at hf
              simp only [Outcome.returned.injEq, Prod.mk.injEq] at hf
              exact absurd hf.2 (by simp)
            · intro res hf
              rw [hfin] at hf
              simp only [Outcome.returned.injEq, Prod.mk.injEq, and_true] at hf
              refine ⟨_, hf.symm, httpResponse, reader, body, rfl, hb, hra, ?_, rfl, rfl, ?_, ?_,
                ?_, ?_⟩ <;> rw [hu]
            · intro e he
              cases he
            · intro resp reader' e hd hbody hre
              simp only [Prod.mk.injEq, Option.some.injEq, and_true] at hd
              rw [← hd, hb] at hbody
              simp only [Option.some.injEq] at hbody
              rw [← hbody, hra] at hre
              cases hre
            · intro resp reader' body' e hd hbody hre hue
              simp only [Prod.mk.injEq, Option.some.injEq, and_true] at hd
              rw [← hd, hb] at hbody
              simp only [Option.some.injEq] at hbody
              rw [← hbody, hra] at hre
              simp only [Prod.mk.injEq, and_true] at hre
              rw [← hre, hu] at hue
              cases hue
            · intro resp reader' hd hbody
              exact ⟨_, hfin⟩
          · have hfin : finish U (some httpResponse, none) = .returned (none, some uerr) := by
              simp only [finish, hb, hra, hu]
            refine ⟨?_, ?_, ?_, ?_, ?_, ?_⟩
            · intro res e hf
              rw [hfin] at hf
              simp only [Outcome.returned.injEq, Prod.mk.injEq, Option.some.injEq] at hf
              refine ⟨hf.1.symm, Or.inr (Or.inr ⟨httpResponse, reader, body, rfl, hb, hra, ?_⟩)⟩
              rw [hu, hf.2]
            · intro res hf
              rw [hfin] at hf
              simp only [Outcome.returned.injEq, Prod.mk.injEq] at hf
              exact absurd hf.2 (by simp)
            · intro e he
              cases he
            · intro resp reader' e hd hbody hre
              simp only [Prod.mk.injEq, Option.some.injEq, and_true] at hd
              rw [← hd, hb] at hbody
              simp only [Option.some.injEq] at hbody
              rw [← hbody, hra] at hre
              cases hre
            · intro resp reader' body' e hd hbody hre hue
              simp only [Prod.mk.injEq, Option.some.injEq, and_true] at hd
              rw [← hd, hb] at hbody
              simp only [Option.some.injEq] at hbody
              rw [← hbody, hra] at hre
              simp only [Prod.mk.injEq, and_true] at hre
              rw [← hre, hu] at hue
              simp only [Option.some.injEq] at hue
              rw [hfin, hue]
            · intro resp reader' hd hbody
              exact ⟨_, hfin⟩
        · have hfin : finish U (some httpResponse, none) = .returned (none, some rerr) := by
            simp only [finish, hb, hra]
          refine ⟨?_, ?_, ?_, ?_, ?_, ?_⟩
          · intro res e hf
            rw [hfin] at hf
            simp only [Outcome.returned.injEq, Prod.mk.injEq, Option.some.injEq] at hf
            refine ⟨hf.1.symm, Or.inr (Or.inl ⟨httpResponse, reader, rfl, hb, ?_⟩)⟩
            rw [hra, hf.2]
          · intro res hf
            rw [hfin] at hf
            simp only [Outcome.returned.injEq, Prod.mk.injEq] at hf
            exact absurd hf.2 (by simp)
          · intro e he
            cases he
          · intro resp reader' e hd hbody hre
            simp only [Prod.mk.injEq, Option.some.injEq, and_true] at hd
            rw [← hd, hb] at hbody
            simp only [Option.some.injEq] at hbody
            rw [← hbody, hra] at hre
            simp only [Option.some.injEq] at hre
            rw [hfin, hre]
          · intro resp reader' body' e hd hbody hre hue
            simp only [Prod.mk.injEq, Option.some.injEq, and_true] at hd
            rw [← hd, hb] at hbody
            simp only [Option.some.injEq] at hbody
            rw [← hbody, hra] at hre
            simp only [Prod.mk.injEq] at hre
            exact absurd hre.2 (by simp)
          · intro resp reader' hd hbody
            exact ⟨_, hfin⟩

theorem finish_exactlyOneNil (U : ResponseDecoder) (done : Option HTTPResponse × Option GoError)
    (p : Option Response × Option GoError) (hf : finish U done = .returned p) :
    ExactlyOneNil p := by
  obtain ⟨res, err⟩ := p
  cases err with
  | some e =>
    have h := ((finish_spec U done).1 res e hf).1
    exact ⟨fun _ => h, fun hn => by cases hn⟩
  | none =>
    obtain ⟨resp, hres, _⟩ := (finish_spec U done).2.1 res hf
    exact ⟨fun hn => absurd rfl hn, fun _ => by rw [hres]; simp⟩

theorem finish_returns (U : ResponseDecoder) (c : Client) (hc : DoConvention c)
    (req : Option HTTPRequest) : ∃ p, finish U (c.Do req) = .returned p := by
  rcases hd : c.Do req with ⟨d1, _ | e⟩
  · obtain ⟨resp, reader, h1, h2⟩ := hc req (by rw [hd])
    rw [hd] at h1
    simp only at h1
    exact (finish_spec U (d1, none)).2.2.2.2.2 resp reader (by rw [h1]) h2
  · exact ⟨_, (finish_spec U (d1, some e)).2.2.1 e rfl⟩

theorem jsonMarshal_snd (r : Request) : (jsonMarshal r).2 = none := rfl

theorem Get_eq (U : ResponseDecoder) (r : Request) (c : Client) (ep : GoString) :
    Get U r c ep =
      match (c.BuildGetRequest ep).2 with
      | some err => .returned (none, some err)
      | none => finish U (c.Do (c.BuildGetRequest ep).1) := by
  unfold Get
  rcases c.BuildGetRequest ep with ⟨q, _ | e⟩ <;> rfl

theorem Post_eq (U : ResponseDecoder) (r : Request) (c : Client) (ep : GoString) :
    Post U r c ep =
      match (c.BuildPostRequest ep (jsonMarshal r).1).2 with
      | some err => .returned (none, some err)
      | none => finish U (c.Do (c.BuildPostRequest ep (jsonMarshal r).1).1) := by
  unfold Post
  simp only [jsonMarshal]
  rcases c.BuildPostRequest ep _ with ⟨q, _ | e⟩ <;> rfl

theorem Put_eq (U : ResponseDecoder) (r : Request) (c : Client) (ep : GoString) :
    Put U r c ep =
      match (c.BuildPutRequest ep (jsonMarshal r).1).2 with
      | some err => .returned (none, some err)
      | none => finish U (c.Do (c.BuildPutRequest ep (jsonMarshal r).1).1) := by
  unfold Put
  simp only [jsonMarshal]
  rcases c.BuildPutRequest ep _ with ⟨q, _ | e⟩ <;> rfl

/-- The shape shared by the three executors once the request is built. -/
theorem built_exactlyOneNil (U : ResponseDecoder) (c : Client)
    (built : Option HTTPRequest × Option GoError) (p : Option Response × Option GoError)
    (h : (match built.2 with
      | some err => Outcome.returned (none, some err)
      | none => finish U (c.Do built.1)) = .returned p) : ExactlyOneNil p := by
  rcases built with ⟨q, _ | e⟩
  · exact finish_exactlyOneNil U _ p h
  · simp only [Outcome.returned.injEq] at h
    rw [← h]
    exact ⟨fun _ => rfl, fun hn => by cases hn⟩

theorem built_returns (U : ResponseDecoder) (c : Client) (hc : DoConvention c)
    (built : Option HTTPRequest × Option GoError) :
    ∃ p, (match built.2 with
      | some err => Outcome.returned (none, some err)
      | none => finish U (c.Do built.1)) = .returned p := by
  rcases built with ⟨q, _ | e⟩
  · exact finish_returns U c hc q
  · exact ⟨_, rfl⟩

theorem passThrough_eq (o : Outcome (Option Response × Option GoError))
    (h : ∀ p, o = .returned p → ExactlyOneNil p) : passThrough o = o := by
  cases o with
  | panicked => rfl
  | returned p =>
    obtain ⟨res, _ | e⟩ := p
    · rfl
    · have := (h _ rfl).1 (by simp)
      simp only at this
      rw [this]
      rfl

theorem Get_exactlyOneNil (U : ResponseDecoder) (r : Request) (c : Client) (ep : GoString)
    (p : Option Response × Option GoError) (h : Get U r c ep = .returned p) : ExactlyOneNil p := by
  rw [Get_eq] at h
  exact built_exactlyOneNil U c _ p h

theorem Post_exactlyOneNil (U : ResponseDecoder) (r : Request) (c : Client) (ep : GoString)
    (p : Option Response × Option GoError) (h : Post U r c ep = .returned p) : ExactlyOneNil p := by
  rw [Post_eq] at h
  exact built_exactlyOneNil U c _ p h

theorem Put_exactlyOneNil (U : ResponseDecoder) (r : Request) (c : Client) (ep : GoString)
    (p : Option Response × Option GoError) (h : Put U r c ep = .returned p) : ExactlyOneNil p := by
  rw [Put_eq] at h
  exact built_exactlyOneNil U c _ p h

theorem GetBehaveJs_snd (U : ResponseDecoder) (r : Request) (c : Client) :
    (GetBehaveJs U r c).2 = Get U r c jsEndpoint :=
  passThrough_eq _ (Get_exactlyOneNil U r c jsEndpoint)

theorem PostBehaveProfile_snd (U : ResponseDecoder) (r : Request) (c : Client)
    (u b a g : GoString) :
    (PostBehaveProfile U r c u b a g).2 =
      Post U { r with UserID := u, BehaviorProfile := b, HostAddress := a, UserAgent := g } c
        behaveEndpoint :=
  passThrough_eq _ (Post_exactlyOneNil U _ c behaveEndpoint)

theorem ResetBehaveProfile_snd (U : ResponseDecoder) (r : Request) (c : Client)
    (u n t d : GoString) :
    (ResetBehaveProfile U r c u n t d).2 =
      Put U { r with UserID := u, FieldName := n, FieldType := t, DeviceType := d } c
        behaveEndpoint :=
  passThrough_eq _ (Put_exactlyOneNil U _ c behaveEndpoint)

/-- C4: each of `Get`, `Post`, `Put`, `GetBehaveJs`, `PostBehaveProfile` and
`ResetBehaveProfile`, whenever it returns, returns exactly one nil result: a
nil Response with a non-nil error, or a non-nil Response with a nil error.
Each of them returns for every client whose `Do` follows the convention of Go
HTTP clients. -/
theorem C4_exactly_one_result_nil (U : ResponseDecoder) (r : Request) (c : Client)
    (endpoint userID behaveProfile hostAddress userAgent fieldName fieldType deviceType :
      GoString) :
    (∀ o ∈ [Get U r c endpoint, Post U r c endpoint, Put U r c endpoint, (GetBehaveJs U r c).2,
        (PostBehaveProfile U r c userID behaveProfile hostAddress userAgent).2,
        (ResetBehaveProfile U r c userID fieldName fieldType deviceType).2],
      ∀ p, o = .returned p → ExactlyOneNil p) ∧
    (DoConvention c →
      ∀ o ∈ [Get U r c endpoint, Post U r c endpoint, Put U r c endpoint, (GetBehaveJs U r c).2,
        (PostBehaveProfile U r c userID behaveProfile hostAddress userAgent).2,
        (ResetBehaveProfile U r c userID fieldName fieldType deviceType).2],
      ∃ p, o = .returned p) := by
  rw [GetBehaveJs_snd, PostBehaveProfile_snd, ResetBehaveProfile_snd]
  constructor
  · intro o ho p hp
    simp only [List.mem_cons, List.mem_singleton, List.not_mem_nil, or_false] at ho
    rcases ho with h | h | h | h | h | h <;> rw [h] at hp
    · exact Get_exactlyOneNil U r c _ p hp
    · exact Post_exactlyOneNil U r c _ p hp
    · exact Put_exactlyOneNil U r c _ p hp
    · exact Get_exactlyOneNil U r c _ p hp
    · exact Post_exactlyOneNil U _ c _ p hp
    · exact Put_exactlyOneNil U _ c _ p hp
  · intro hc o ho
    simp only [List.mem_cons, List.mem_singleton, List.not_mem_nil, or_false] at ho
    rcases ho with h | h | h | h | h | h <;> rw [h]
    · rw [Get_eq]; exact built_returns U c hc _
    · rw [Post_eq]; exact built_returns U c hc _
    · rw [Put_eq]; exact built_returns U c hc _
    · rw [Get_eq]; exact built_returns U c hc _
    · rw [Post_eq]; exact built_returns U c hc _
    · rw [Put_eq]; exact built_returns U c hc _

theorem cannedClient_convention (body : String) : DoConvention (cannedClient body) :=
  fun _ _ => ⟨_, _, rfl, rfl⟩

/-- Witness of C4: a `Post` through a client that answers every request. -/
theorem C4_witness :
    DoConvention (cannedClient "ok") ∧
    ∃ p, Post cannedDecoder ⟨str "user", [], [], [], [], [], []⟩ (cannedClient "ok")
        behaveEndpoint = .returned p ∧ ExactlyOneNil p :=
  ⟨cannedClient_convention "ok",
    ((C4_exactly_one_result_nil cannedDecoder ⟨str "user", [], [], [], [], [], []⟩
        (cannedClient "ok") behaveEndpoint [] [] [] [] [] [] []).2 (cannedClient_convention "ok")
        (Post cannedDecoder ⟨str "user", [], [], [], [], [], []⟩ (cannedClient "ok")
          behaveEndpoint)
        (List.mem_cons_of_mem _ (List.mem_cons_self _ _))).elim
      fun p hp => ⟨p, hp,
        (C4_exactly_one_result_nil cannedDecoder ⟨str "user", [], [], [], [], [], []⟩
          (cannedClient "ok") behaveEndpoint [] [] [] [] [] [] []).1 _
          (List.mem_cons_of_mem _ (List.mem_cons_self _ _)) p hp⟩⟩

theorem built_retains (U : ResponseDecoder) (c : Client)
    (built : Option HTTPRequest × Option GoError) (res : Option Response)
    (h : (match built.2 with
      | some err => Outcome.returned (none, some err)
      | none => finish U (c.Do built.1)) = .returned (res, none)) :
    ∃ resp, res = some resp ∧ built.2 = none ∧ Retains U (c.Do built.1) resp := by
  rcases built with ⟨q, _ | e⟩
  · obtain ⟨resp, h1, h2⟩ := (finish_spec U _).2.1 res h
    exact ⟨resp, h1, rfl, h2⟩
  · simp only [Outcome.returned.injEq, Prod.mk.injEq] at h
    exact absurd h.2 (by simp)

/-- C5: when `Get`, `Post` or `Put` returns a nil error, the request was
built, and the returned Response holds as RawJSON the whole body read from the
HTTP response that the client's `Do` returned, as HTTPResponse that response
(its body now a buffer over the bytes read), and as JSON-visible fields the
result of decoding that body. -/
theorem C5_response_retains_body (U : ResponseDecoder) (r : Request) (c : Client)
    (endpoint : GoString) (res : Option Response) :
    (Get U r c endpoint = .returned (res, none) →
      ∃ resp, res = some resp ∧ (c.BuildGetRequest endpoint).2 = none ∧
        Retains U (c.Do (c.BuildGetRequest endpoint).1) resp) ∧
    (Post U r c endpoint = .returned (res, none) →
      ∃ resp, res = some resp ∧ (c.BuildPostRequest endpoint (jsonMarshal r).1).2 = none ∧
        Retains U (c.Do (c.BuildPostRequest endpoint (jsonMarshal r).1).1) resp) ∧
    (Put U r c endpoint = .returned (res, none) →
      ∃ resp, res = some resp ∧ (c.BuildPutRequest endpoint (jsonMarshal r).1).2 = none ∧
        Retains U (c.Do (c.BuildPutRequest endpoint (jsonMarshal r).1).1) resp) := by
  refine ⟨?_, ?_, ?_⟩
  · intro h
    rw [Get_eq] at h
    exact built_retains U c _ res h
  · intro h
    rw [Post_eq] at h
    exact built_retains U c _ res h
  · intro h
    rw [Put_eq] at h
    exact built_retains U c _ res h

/-- Witness of C5: a `Post` answered with the body `ok`. -/
theorem C5_witness :
    Post cannedDecoder ⟨str "user", [], [], [], [], [], []⟩ (cannedClient "ok") behaveEndpoint =
      .returned (some ⟨[], ⟨0, 0, [], []⟩, str "ok", [], str "ok",
        some ⟨200, [], some ⟨str "ok", none⟩⟩⟩, none) ∧
    ∃ resp, some (⟨[], ⟨0, 0, [], []⟩, str "ok", [], str "ok",
        some ⟨200, [], some ⟨str "ok", none⟩⟩⟩ : Response) = some resp ∧
      ((cannedClient "ok").BuildPostRequest behaveEndpoint
        (jsonMarshal ⟨str "user", [], [], [], [], [], []⟩).1).2 = none ∧
      Retains cannedDecoder ((cannedClient "ok").Do ((cannedClient "ok").BuildPostRequest
        behaveEndpoint (jsonMarshal ⟨str "user", [], [], [], [], [], []⟩).1).1) resp :=
  ⟨by decide,
    (C5_response_retains_body cannedDecoder ⟨str "user", [], [], [], [], [], []⟩
      (cannedClient "ok") behaveEndpoint _).2.1 (by decide)⟩

theorem built_firstFailure (U : ResponseDecoder) (c : Client)
    (built : Option HTTPRequest × Option GoError) (e : GoError) :
    (∃ res, (match built.2 with
      | some err => Outcome.returned (none, some err)
      | none => finish U (c.Do built.1)) = .returned (res, some e)) ↔
    FirstFailure U c built e := by
  rcases built with ⟨q, _ | e'⟩
  · constructor
    · rintro ⟨res, h⟩
      rcases ((finish_spec U _).1 res e h).2 with h1 | ⟨resp, reader, h1, h2, h3⟩ |
        ⟨resp, reader, body, h1, h2, h3, h4⟩
      · exact Or.inr (Or.inl ⟨rfl, h1⟩)
      · exact Or.inr (Or.inr (Or.inl ⟨rfl, resp, reader, h1, h2, h3⟩))
      · exact Or.inr (Or.inr (Or.inr ⟨rfl, resp, reader, body, h1, h2, h3, h4⟩))
    · rintro (h | ⟨_, h⟩ | ⟨_, resp, reader, h1, h2, h3⟩ | ⟨_, resp, reader, body, h1, h2, h3, h4⟩)
      · cases h
      · exact ⟨none, (finish_spec U _).2.2.1 e h⟩
      · exact ⟨none, (finish_spec U _).2.2.2.1 resp reader e h1 h2 h3⟩
      · exact ⟨none, (finish_spec U _).2.2.2.2.1 resp reader body e h1 h2 h3 h4⟩
  · constructor
    · rintro ⟨res, h⟩
      simp only [Outcome.returned.injEq, Prod.mk.injEq, Option.some.injEq] at h
      exact Or.inl (by rw [h.2])
    · rintro (h | ⟨h, _⟩ | ⟨h, _⟩ | ⟨h, _⟩)
      · simp only [Option.some.injEq] at h
        exact ⟨none, by rw [h]⟩
      · cases h
      · cases h
      · cases h

/-- C6: `Get`, `Post` and `Put` return a non-nil error `e` exactly when `e` is
the error of the first failing step among building the HTTP request, the
client's `Do`, reading the body and decoding the body as a Response; the error
is passed through unchanged, and serialising the Request is never a failing
step. -/
theorem C6_error_is_first_failure (U : ResponseDecoder) (r : Request) (c : Client)
    (endpoint : GoString) (e : GoError) :
    ((∃ res, Get U r c endpoint = .returned (res, some e)) ↔
      FirstFailure U c (c.BuildGetRequest endpoint) e) ∧
    ((∃ res, Post U r c endpoint = .returned (res, some e)) ↔
      FirstFailure U c (c.BuildPostRequest endpoint (jsonMarshal r).1) e) ∧
    ((∃ res, Put U r c endpoint = .returned (res, some e)) ↔
      FirstFailure U c (c.BuildPutRequest endpoint (jsonMarshal r).1) e) ∧
    (jsonMarshal r).2 = none := by
  refine ⟨?_, ?_, ?_, rfl⟩
  · rw [Get_eq]
    exact built_firstFailure U c _ e
  · rw [Post_eq]
    exact built_firstFailure U c _ e
  · rw [Put_eq]
    exact built_firstFailure U c _ e

/-- Witness of C6: the decoder rejects the body, and `Put` returns its error. -/
theorem C6_witness :
    FirstFailure failingDecoder (cannedClient "ok")
      ((cannedClient "ok").BuildPutRequest behaveEndpoint
        (jsonMarshal ⟨str "user", [], [], [], [], [], []⟩).1) ⟨"invalid character"⟩ ∧
    ∃ res, Put failingDecoder ⟨str "user", [], [], [], [], [], []⟩ (cannedClient "ok")
      behaveEndpoint = .returned (res, some ⟨"invalid character"⟩) :=
  ⟨Or.inr (Or.inr (Or.inr ⟨rfl, _, _, _, rfl, rfl, rfl, rfl⟩)),
    (C6_error_is_first_failure failingDecoder ⟨str "user", [], [], [], [], [], []⟩
      (cannedClient "ok") behaveEndpoint ⟨"invalid character"⟩).2.2.1.2
      (Or.inr (Or.inr (Or.inr ⟨rfl, _, _, _, rfl, rfl, rfl, rfl⟩)))⟩

/-- C8: `PostBehaveProfile` sets UserID, BehaviorProfile, HostAddress and
UserAgent of the receiver to its arguments, leaves FieldName, FieldType and
DeviceType as they were, and returns what `Post` on the updated receiver
against `/api/v1/behavebio` returns. `ResetBehaveProfile` sets UserID,
FieldName, FieldType and DeviceType, leaves BehaviorProfile, HostAddress and
UserAgent as they were, and returns what `Put` on the updated receiver against
the same endpoint returns. `GetBehaveJs` leaves the receiver unchanged and
returns what `Get` against `/api/v1/behavebio/js` returns. -/
theorem C8_helpers_frame (U : ResponseDecoder) (r : Request) (c : Client)
    (userID behaveProfile hostAddress userAgent fieldName fieldType deviceType : GoString) :
    ((PostBehaveProfile U r c userID behaveProfile hostAddress userAgent).1 =
        ⟨userID, behaveProfile, hostAddress, userAgent, r.FieldName, r.FieldType, r.DeviceType⟩ ∧
      (PostBehaveProfile U r c userID behaveProfile hostAddress userAgent).2 =
        Post U (PostBehaveProfile U r c userID behaveProfile hostAddress userAgent).1 c
          (str "/api/v1/behavebio")) ∧
    ((ResetBehaveProfile U r c userID fieldName fieldType deviceType).1 =
        ⟨userID, r.BehaviorProfile, r.HostAddress, r.UserAgent, fieldName, fieldType,
          deviceType⟩ ∧
      (ResetBehaveProfile U r c userID fieldName fieldType deviceType).2 =
        Put U (ResetBehaveProfile U r c userID fieldName fieldType deviceType).1 c
          (str "/api/v1/behavebio")) ∧
    ((GetBehaveJs U r c).1 = r ∧
      (GetBehaveJs U r c).2 = Get U r c (str "/api/v1/behavebio/js")) := by
  refine ⟨⟨rfl, ?_⟩, ⟨rfl, ?_⟩, rfl, ?_⟩
  · exact PostBehaveProfile_snd U r c userID behaveProfile hostAddress userAgent
  · exact ResetBehaveProfile_snd U r c userID fieldName fieldType deviceType
  · exact GetBehaveJs_snd U r c

/-! ## UTF-8: decoding followed by encoding -/

theorem lor_of_dvd (i n b : Nat) (h : 2 ^ i ∣ n) (hb : b < 2 ^ i) : n ||| b = n + b := by
  obtain ⟨a, rfl⟩ := h
  exact (Nat.mul_add_lt_is_or hb a).symm

theorem and_63 (x : Nat) : x &&& 0x3F = x % 64 := Nat.and_pow_two_sub_one_eq_mod x 6

theorem and_31 (x : Nat) : x &&& 0x1F = x % 32 := Nat.and_pow_two_sub_one_eq_mod x 5

theorem and_15 (x : Nat) : x &&& 0x0F = x % 16 := Nat.and_pow_two_sub_one_eq_mod x 4

theorem and_7 (x : Nat) : x &&& 0x07 = x % 8 := Nat.and_pow_two_sub_one_eq_mod x 3

theorem lor_192 (x : Nat) (h : x < 64) : 0xC0 ||| x = 192 + x :=
  lor_of_dvd 6 192 x ⟨3, rfl⟩ h

theorem lor_128 (x : Nat) (h : x < 64) : 0x80 ||| x = 128 + x :=
  lor_of_dvd 6 128 x ⟨2, rfl⟩ h

theorem lor_224 (x : Nat) (h : x < 16) : 0xE0 ||| x = 224 + x :=
  lor_of_dvd 4 224 x ⟨14, rfl⟩ h

theorem lor_240 (x : Nat) (h : x < 8) : 0xF0 ||| x = 240 + x :=
  lor_of_dvd 3 240 x ⟨30, rfl⟩ h

theorem shl_lor (i x y : Nat) (h : y < 2 ^ i) : (x <<< i) ||| y = x * 2 ^ i + y := by
  rw [Nat.shiftLeft_eq]
  exact lor_of_dvd i _ y ⟨x, Nat.mul_comm _ _⟩ h

theorem encodeRune_one (r : Nat) (h : r ≤ 0x7F) : encodeRune r = [byteOf r] := by
  unfold encodeRune
  rw [if_pos h]

theorem encodeRune_two (r : Nat) (h1 : 0x7F < r) (h2 : r ≤ 0x7FF) :
    encodeRune r = [byteOf (192 + r / 64), byteOf (128 + r % 64)] := by
  unfold encodeRune
  rw [if_neg (by omega), if_pos h2, Nat.shiftRight_eq_div_pow, and_63,
    lor_192 _ (by omega), lor_128 _ (by omega)]

theorem encodeRune_three (r : Nat) (h1 : 0x7FF < r) (h2 : r ≤ 0xFFFF)
    (h3 : ¬ (0xD800 ≤ r ∧ r ≤ 0xDFFF)) :
    encodeRune r = [byteOf (224 + r / 4096), byteOf (128 + r / 64 % 64), byteOf (128 + r % 64)] := by
  unfold encodeRune
  rw [if_neg (by omega), if_neg (by omega), if_neg (by omega), if_pos h2]
  simp only [Nat.shiftRight_eq_div_pow, and_63]
  rw [lor_224 _ (by omega), lor_128 _ (by omega), lor_128 _ (by omega)]

theorem encodeRune_four (r : Nat) (h1 : 0xFFFF < r) (h2 : r ≤ 0x10FFFF) :
    encodeRune r = [byteOf (240 + r / 262144), byteOf (128 + r / 4096 % 64),
      byteOf (128 + r / 64 % 64), byteOf (128 + r % 64)] := by
  unfold encodeRune
  rw [if_neg (by omega), if_neg (by omega), if_neg (by omega), if_neg (by omega)]
  simp only [Nat.shiftRight_eq_div_pow, and_63]
  rw [lor_240 _ (by omega), lor_128 _ (by omega), lor_128 _ (by omega), lor_128 _ (by omega)]

theorem rune2 (a b : Nat) : ((a &&& 0x1F) <<< 6) ||| (b &&& 0x3F) = a % 32 * 64 + b % 64 := by
  rw [and_31, and_63, shl_lor 6 _ _ (by omega)]
  omega

theorem rune3 (a b c : Nat) :
    ((a &&& 0x0F) <<< 12) ||| ((b &&& 0x3F) <<< 6) ||| (c &&& 0x3F) =
      a % 16 * 4096 + b % 64 * 64 + c % 64 := by
  rw [and_15, and_63, and_63, Nat.shiftLeft_eq (b % 64) 6,
    shl_lor 12 _ _ (by omega)]
  exact lor_of_dvd 6 _ _ ⟨a % 16 * 64 + b % 64, by omega⟩ (by omega)

theorem rune4 (a b c d : Nat) :
    ((a &&& 0x07) <<< 18) ||| ((b &&& 0x3F) <<< 12) ||| ((c &&& 0x3F) <<< 6) ||| (d &&& 0x3F) =
      a % 8 * 262144 + b % 64 * 4096 + c % 64 * 64 + d % 64 := by
  rw [and_7, and_63, and_63, and_63, Nat.shiftLeft_eq (b % 64) 12, Nat.shiftLeft_eq (c % 64) 6,
    shl_lor 18 _ _ (by omega)]
  rw [lor_of_dvd 12 (a % 8 * 2 ^ 18 + b % 64 * 2 ^ 12) (c % 64 * 2 ^ 6)
    ⟨a % 8 * 64 + b % 64, by omega⟩ (by omega)]
  exact lor_of_dvd 6 _ _ ⟨a % 8 * 4096 + b % 64 * 64 + c % 64, by omega⟩ (by omega)

theorem decodeRune_two (s0 s1 : Byte) (t : GoString) (h1 : 0xC2 ≤ s0.val) (h2 : s0.val ≤ 0xDF)
    (h3 : 0x80 ≤ s1.val) (h4 : s1.val ≤ 0xBF) :
    decodeRune (s0 :: s1 :: t) = (s0.val % 32 * 64 + s1.val % 64, 2) := by
  have a0 : ¬ s0.val < 0x80 := by omega
  have a1 : ¬ (s0.val < 0xC2 ∨ 0xF4 < s0.val) := by omega
  have a2 : s0.val < 0xE0 := by omega
  have n1 : s0.val ≠ 0xE0 := by omega
  have n2 : s0.val ≠ 0xF0 := by omega
  have n3 : s0.val ≠ 0xED := by omega
  have n4 : s0.val ≠ 0xF4 := by omega
  have hr : ¬ (s1.val < 0x80 ∨ 0xBF < s1.val) := by omega
  simp only [decodeRune, if_neg a0, if_neg a1, if_pos a2, if_neg n1, if_neg n2, if_neg n3,
    if_neg n4, if_neg hr, List.length_cons, rune2]
  split_ifs <;> first | rfl | omega

theorem decodeRune_three (s0 s1 s2 : Byte) (t : GoString) (h1 : 0xE0 ≤ s0.val)
    (h2 : s0.val ≤ 0xEF) (h3 : (if s0.val = 0xE0 then 0xA0 else 0x80) ≤ s1.val)
    (h4 : s1.val ≤ (if s0.val = 0xED then 0x9F else 0xBF)) (h5 : 0x80 ≤ s2.val)
    (h6 : s2.val ≤ 0xBF) :
    decodeRune (s0 :: s1 :: s2 :: t) =
      (s0.val % 16 * 4096 + s1.val % 64 * 64 + s2.val % 64, 3) := by
  have a0 : ¬ s0.val < 0x80 := by omega
  have a1 : ¬ (s0.val < 0xC2 ∨ 0xF4 < s0.val) := by omega
  have a2 : ¬ s0.val < 0xE0 := by omega
  have a3 : s0.val < 0xF0 := by omega
  have n2 : s0.val ≠ 0xF0 := by omega
  have n4 : s0.val ≠ 0xF4 := by omega
  have hr : ¬ (s1.val < (if s0.val = 0xE0 then 0xA0 else 0x80) ∨
      (if s0.val = 0xED then 0x9F else 0xBF) < s1.val) := by omega
  have hr2 : ¬ (s2.val < 0x80 ∨ 0xBF < s2.val) := by omega
  simp only [decodeRune, if_neg a0, if_neg a1, if_neg a2, if_pos a3, if_neg n2,
    if_neg n4, if_neg hr, if_neg hr2, List.length_cons, rune3]
  split_ifs <;> first | rfl | omega

theorem decodeRune_four (s0 s1 s2 s3 : Byte) (t : GoString) (h1 : 0xF0 ≤ s0.val)
    (h2 : s0.val ≤ 0xF4) (h3 : (if s0.val = 0xF0 then 0x90 else 0x80) ≤ s1.val)
    (h4 : s1.val ≤ (if s0.val = 0xF4 then 0x8F else 0xBF)) (h5 : 0x80 ≤ s2.val)
    (h6 : s2.val ≤ 0xBF) (h7 : 0x80 ≤ s3.val) (h8 : s3.val ≤ 0xBF) :
    decodeRune (s0 :: s1 :: s2 :: s3 :: t) =
      (s0.val % 8 * 262144 + s1.val % 64 * 4096 + s2.val % 64 * 64 + s3.val % 64, 4) := by
  have a0 : ¬ s0.val < 0x80 := by omega
  have a1 : ¬ (s0.val < 0xC2 ∨ 0xF4 < s0.val) := by omega
  have a2 : ¬ s0.val < 0xE0 := by omega
  have a3 : ¬ s0.val < 0xF0 := by omega
  have n1 : s0.val ≠ 0xE0 := by omega
  have n3 : s0.val ≠ 0xED := by omega
  have hr : ¬ (s1.val < (if s0.val = 0xF0 then 0x90 else 0x80) ∨
      (if s0.val = 0xF4 then 0x8F else 0xBF) < s1.val) := by omega
  have hr2 : ¬ (s2.val < 0x80 ∨ 0xBF < s2.val) := by omega
  have hr3 : ¬ (s3.val < 0x80 ∨ 0xBF < s3.val) := by omega
  simp only [decodeRune, if_neg a0, if_neg a1, if_neg a2, if_neg a3, if_neg n1,
    if_neg n3, if_neg hr, if_neg hr2, if_neg hr3, List.length_cons, rune4]
  split_ifs <;> first | rfl | omega

/-- The outcome of `decodeRune` on a non-empty input, case by case. -/
theorem decodeRune_cases (s0 : Byte) (rest : GoString) :
    (s0.val < 0x80 ∧ decodeRune (s0 :: rest) = (s0.val, 1)) ∨
    (0x80 ≤ s0.val ∧ decodeRune (s0 :: rest) = (RuneError, 1)) ∨
    (∃ s1 t, rest = s1 :: t ∧ 0xC2 ≤ s0.val ∧ s0.val ≤ 0xDF ∧ 0x80 ≤ s1.val ∧ s1.val ≤ 0xBF ∧
      decodeRune (s0 :: rest) = (s0.val % 32 * 64 + s1.val % 64, 2)) ∨
    (∃ s1 s2 t, rest = s1 :: s2 :: t ∧ 0xE0 ≤ s0.val ∧ s0.val ≤ 0xEF ∧
      (if s0.val = 0xE0 then 0xA0 else 0x80) ≤ s1.val ∧
      s1.val ≤ (if s0.val = 0xED then 0x9F else 0xBF) ∧ 0x80 ≤ s2.val ∧ s2.val ≤ 0xBF ∧
      decodeRune (s0 :: rest) = (s0.val % 16 * 4096 + s1.val % 64 * 64 + s2.val % 64, 3)) ∨
    (∃ s1 s2 s3 t, rest = s1 :: s2 :: s3 :: t ∧ 0xF0 ≤ s0.val ∧ s0.val ≤ 0xF4 ∧
      (if s0.val = 0xF0 then 0x90 else 0x80) ≤ s1.val ∧
      s1.val ≤ (if s0.val = 0xF4 then 0x8F else 0xBF) ∧ 0x80 ≤ s2.val ∧ s2.val ≤ 0xBF ∧
      0x80 ≤ s3.val ∧ s3.val ≤ 0xBF ∧
      decodeRune (s0 :: rest) =
        (s0.val % 8 * 262144 + s1.val % 64 * 4096 + s2.val % 64 * 64 + s3.val % 64, 4)) := by
  by_cases h0 : s0.val < 0x80
  · left
    exact ⟨h0, by simp only [decodeRune]; rw [if_pos h0]⟩
  right
  by_cases h1 : s0.val < 0xC2 ∨ 0xF4 < s0.val
  · left
    exact ⟨by omega, by simp only [decodeRune]; rw [if_neg h0, if_pos h1]⟩
  have hs0 := s0.isLt
  by_cases h2 : s0.val < 0xE0
  · -- two bytes
    have n1 : s0.val ≠ 0xE0 := by omega
    have n2 : s0.val ≠ 0xF0 := by omega
    have n3 : s0.val ≠ 0xED := by omega
    have n4 : s0.val ≠ 0xF4 := by omega
    rcases rest with _ | ⟨s1, t⟩
    · left
      refine ⟨by omega, ?_⟩
      simp only [decodeRune, if_neg h0, if_neg h1, if_pos h2, List.length_nil]
      rfl
    · by_cases hr : s1.val < 0x80 ∨ 0xBF < s1.val
      · left
        refine ⟨by omega, ?_⟩
        simp only [decodeRune, if_neg h0, if_neg h1, if_pos h2, if_neg n1, if_neg n2, if_neg n3,
          if_neg n4, if_pos hr, List.length_cons]
        split_ifs <;> rfl
      · right; left
        exact ⟨s1, t, rfl, by omega, by omega, by omega, by omega,
          decodeRune_two s0 s1 t (by omega) (by omega) (by omega) (by omega)⟩
  by_cases h3 : s0.val < 0xF0
  · -- three bytes
    have n2 : s0.val ≠ 0xF0 := by omega
    have n4 : s0.val ≠ 0xF4 := by omega
    rcases rest with _ | ⟨s1, _ | ⟨s2, t⟩⟩
    · left
      refine ⟨by omega, ?_⟩
      simp only [decodeRune, if_neg h0, if_neg h1, if_neg h2, if_pos h3, List.length_nil]
      rfl
    · left
      refine ⟨by omega, ?_⟩
      simp only [decodeRune, if_neg h0, if_neg h1, if_neg h2, if_pos h3, List.length_cons,
        List.length_nil]
      rfl
    · by_cases hr : s1.val < (if s0.val = 0xE0 then 0xA0 else 0x80) ∨
          (if s0.val = 0xED then 0x9F else 0xBF) < s1.val
      · left
        refine ⟨by omega, ?_⟩
        simp only [decodeRune, if_neg h0, if_neg h1, if_neg h2, if_pos h3, if_neg n2, if_neg n4,
          if_pos hr, List.length_cons]
        split_ifs <;> rfl
      · by_cases hr2 : s2.val < 0x80 ∨ 0xBF < s2.val
        · left
          refine ⟨by omega, ?_⟩
          simp only [decodeRune, if_neg h0, if_neg h1, if_neg h2, if_pos h3, if_neg n2,
            if_neg n4, if_neg hr, if_pos hr2, List.length_cons]
          split_ifs <;> first | rfl | omega
        · right; right; left
          exact ⟨s1, s2, t, rfl, by omega, by omega, by omega, by omega, by omega, by omega,
            decodeRune_three s0 s1 s2 t (by omega) (by omega) (by omega) (by omega) (by omega)
              (by omega)⟩
  · -- four bytes
    have n1 : s0.val ≠ 0xE0 := by omega
    have n3 : s0.val ≠ 0xED := by omega
    rcases rest with _ | ⟨s1, _ | ⟨s2, _ | ⟨s3, t⟩⟩⟩
    · left
      refine ⟨by omega, ?_⟩
      simp only [decodeRune, if_neg h0, if_neg h1, if_neg h2, if_neg h3, List.length_nil]
      rfl
    · left
      refine ⟨by omega, ?_⟩
      simp only [decodeRune, if_neg h0, if_neg h1, if_neg h2, if_neg h3, List.length_cons,
        List.length_nil]
      rfl
    · left
      refine ⟨by omega, ?_⟩
      simp only [decodeRune, if_neg h0, if_neg h1, if_neg h2, if_neg h3, List.length_cons,
        List.length_nil]
      rfl
    · by_cases hr : s1.val < (if s0.val = 0xF0 then 0x90 else 0x80) ∨
          (if s0.val = 0xF4 then 0x8F else 0xBF) < s1.val
      · left
        refine ⟨by omega, ?_⟩
        simp only [decodeRune, if_neg h0, if_neg h1, if_neg h2, if_neg h3, if_neg n1, if_neg n3,
          if_pos hr, List.length_cons]
        split_ifs <;> rfl
      · by_cases hr2 : s2.val < 0x80 ∨ 0xBF < s2.val
        · left
          refine ⟨by omega, ?_⟩
          simp only [decodeRune, if_neg h0, if_neg h1, if_neg h2, if_neg h3, if_neg n1,
            if_neg n3, if_neg hr, if_pos hr2, List.length_cons]
          split_ifs <;> first | rfl | omega
        · by_cases hr3 : s3.val < 0x80 ∨ 0xBF < s3.val
          · left
            refine ⟨by omega, ?_⟩
            simp only [decodeRune, if_neg h0, if_neg h1, if_neg h2, if_neg h3, if_neg n1,
              if_neg n3, if_neg hr, if_neg hr2, if_pos hr3, List.length_cons]
            split_ifs <;> first | rfl | omega
          · right; right; right
            exact ⟨s1, s2, s3, t, rfl, by omega, by omega, by omega, by omega, by omega,
              by omega, by omega, by omega,
              decodeRune_four s0 s1 s2 s3 t (by omega) (by omega) (by omega) (by omega)
                (by omega) (by omega) (by omega) (by omega)⟩

/-- A step of `decodeRune` that is not an error consumes bytes that
`encodeRune` gives back from the rune, and decodes alike before any other
continuation. -/
theorem decodeRune_valid (s0 : Byte) (rest : GoString)
    (hv : ¬ ((decodeRune (s0 :: rest)).1 = RuneError ∧ (decodeRune (s0 :: rest)).2 = 1)) :
    1 ≤ (decodeRune (s0 :: rest)).2 ∧
    (decodeRune (s0 :: rest)).2 ≤ (s0 :: rest).length ∧
    encodeRune (decodeRune (s0 :: rest)).1 = (s0 :: rest).take (decodeRune (s0 :: rest)).2 ∧
    (∀ t, decodeRune ((s0 :: rest).take (decodeRune (s0 :: rest)).2 ++ t) =
      decodeRune (s0 :: rest)) ∧
    (0x80 ≤ s0.val → 0x80 ≤ (decodeRune (s0 :: rest)).1 ∧
      ∀ b ∈ (s0 :: rest).take (decodeRune (s0 :: rest)).2, 0x80 ≤ b.val) := by
  have hs0 := s0.isLt
  rcases decodeRune_cases s0 rest with ⟨h0, hd⟩ | ⟨h0, hd⟩ |
    ⟨s1, t, rfl, h1, h2, h3, h4, hd⟩ | ⟨s1, s2, t, rfl, h1, h2, h3, h4, h5, h6, hd⟩ |
    ⟨s1, s2, s3, t, rfl, h1, h2, h3, h4, h5, h6, h7, h8, hd⟩
  · rw [hd]
    refine ⟨by simp, by simp, ?_, ?_, fun h => by omega⟩
    · rw [encodeRune_one _ (by omega)]
      simp only [List.take_succ_cons, List.take_zero, List.cons.injEq, and_true]
      exact Fin.ext (by simp only [byteOf]; omega)
    · intro t
      simp only [List.take_succ_cons, List.take_zero, List.singleton_append, decodeRune,
        if_pos h0]
  · rw [hd] at hv
    exact absurd ⟨rfl, rfl⟩ hv
  · have hs1 := s1.isLt
    rw [hd]
    refine ⟨by simp, by simp, ?_, ?_, fun _ => ⟨by omega, ?_⟩⟩
    · rw [encodeRune_two _ (by omega) (by omega)]
      simp only [List.take_succ_cons, List.take_zero, List.cons.injEq, and_true]
      exact ⟨Fin.ext (by simp only [byteOf]; omega), Fin.ext (by simp only [byteOf]; omega)⟩
    · intro t'
      exact decodeRune_two s0 s1 _ h1 h2 h3 h4
    · intro b hb
      simp only [List.take_succ_cons, List.take_zero, List.mem_cons, List.mem_singleton,
        List.not_mem_nil, or_false] at hb
      rcases hb with rfl | rfl <;> omega
  · have hs1 := s1.isLt
    have hs2 := s2.isLt
    rw [hd]
    refine ⟨by simp, by simp, ?_, ?_, fun _ => ⟨by split_ifs at h3 h4 <;> omega, ?_⟩⟩
    · rw [encodeRune_three _ (by split_ifs at h3 h4 <;> omega) (by omega)
        (by split_ifs at h3 h4 <;> omega)]
      simp only [List.take_succ_cons, List.take_zero, List.cons.injEq, and_true]
      exact ⟨Fin.ext (by simp only [byteOf]; split_ifs at h3 h4 <;> omega),
        Fin.ext (by simp only [byteOf]; split_ifs at h3 h4 <;> omega),
        Fin.ext (by simp only [byteOf]; omega)⟩
    · intro t'
      exact decodeRune_three s0 s1 s2 _ h1 h2 h3 h4 h5 h6
    · intro b hb
      simp only [List.take_succ_cons, List.take_zero, List.mem_cons, List.mem_singleton,
        List.not_mem_nil, or_false] at hb
      rcases hb with rfl | rfl | rfl <;> first | omega | (split_ifs at h3 h4 <;> omega)
  · have hs1 := s1.isLt
    have hs2 := s2.isLt
    have hs3 := s3.isLt
    rw [hd]
    refine ⟨by simp, by simp, ?_, ?_, fun _ => ⟨by split_ifs at h3 h4 <;> omega, ?_⟩⟩
    · rw [encodeRune_four _ (by split_ifs at h3 h4 <;> omega)
        (by split_ifs at h3 h4 <;> omega)]
      simp only [List.take_succ_cons, List.take_zero, List.cons.injEq, and_true]
      exact ⟨Fin.ext (by simp only [byteOf]; split_ifs at h3 h4 <;> omega),
        Fin.ext (by simp only [byteOf]; split_ifs at h3 h4 <;> omega),
        Fin.ext (by simp only [byteOf]; omega), Fin.ext (by simp only [byteOf]; omega)⟩
    · intro t'
      exact decodeRune_four s0 s1 s2 s3 _ h1 h2 h3 h4 h5 h6 h7 h8
    · intro b hb
      simp only [List.take_succ_cons, List.take_zero, List.mem_cons, List.mem_singleton,
        List.not_mem_nil, or_false] at hb
      rcases hb with rfl | rfl | rfl | rfl <;> first | omega | (split_ifs at h3 h4 <;> omega)

/-! ## The scanner accepts what the encoder writes -/

theorem scanString_escU (more : Nat) (c : Byte) (rest : GoString) :
    scanString (.escU more) (c :: rest) =
      if isHexDigit c then
        (scanString (match more with
          | 0 => .inString
          | k + 1 => .escU k) rest).map fun p => (c :: p.1, p.2)
      else none := by
  rfl

theorem scanString_esc (c : Byte) (rest : GoString) :
    scanString .esc (c :: rest) =
      if isSimpleEscape c then (scanString .inString rest).map fun p => (c :: p.1, p.2)
      else if c.val = 117 then (scanString (.escU 3) rest).map fun p => (c :: p.1, p.2)
      else none := by
  rfl

theorem scanString_inString (c : Byte) (rest : GoString) :
    scanString .inString (c :: rest) =
      if c.val = 34 then some ([], rest)
      else if c.val = 92 then (scanString .esc rest).map fun p => (c :: p.1, p.2)
      else if c.val < 32 then none
      else (scanString .inString rest).map fun p => (c :: p.1, p.2) := by
  rfl

theorem scanString_plain (b : Byte) (X : GoString) (h1 : b.val ≠ 34) (h2 : b.val ≠ 92)
    (h3 : ¬ b.val < 32) :
    scanString .inString (b :: X) =
      (scanString .inString X).map fun p => ([b] ++ p.1, p.2) := by
  rw [scanString_inString, if_neg h1, if_neg h2, if_neg h3]
  rfl

theorem scanString_plain_append (p X : GoString)
    (hp : ∀ b ∈ p, b.val ≠ 34 ∧ b.val ≠ 92 ∧ ¬ b.val < 32) :
    scanString .inString (p ++ X) =
      (scanString .inString X).map fun q => (p ++ q.1, q.2) := by
  induction p with
  | nil =>
    simp only [List.nil_append]
    cases scanString .inString X with
    | none => rfl
    | some wr => rfl
  | cons b p ih =>
    have hb := hp b (List.mem_cons_self _ _)
    rw [List.cons_append, scanString_plain b _ hb.1 hb.2.1 hb.2.2,
      ih (fun c hc => hp c (List.mem_cons_of_mem _ hc))]
    cases scanString .inString X with
    | none => rfl
    | some wr => rfl

theorem scanString_simple (e : Byte) (X : GoString) (he : isSimpleEscape e = true) :
    scanString .inString (92 :: e :: X) =
      (scanString .inString X).map fun p => ([92, e] ++ p.1, p.2) := by
  have n1 : ¬ ((92 : Byte).val = 34) := by decide
  have n2 : (92 : Byte).val = 92 := by decide
  rw [scanString_inString, if_neg n1, if_pos n2, scanString_esc, if_pos he]
  cases scanString .inString X with
  | none => rfl
  | some wr => rfl

theorem scanString_u4 (h1 h2 h3 h4 : Byte) (X : GoString)
    (hh : (isHexDigit h1 && isHexDigit h2 && isHexDigit h3 && isHexDigit h4) = true) :
    scanString .inString (92 :: 117 :: h1 :: h2 :: h3 :: h4 :: X) =
      (scanString .inString X).map fun p => ([92, 117, h1, h2, h3, h4] ++ p.1, p.2) := by
  have n1 : ¬ ((92 : Byte).val = 34) := by decide
  have n2 : (92 : Byte).val = 92 := by decide
  have n3 : (117 : Byte).val = 117 := by decide
  have h117 : ¬ (isSimpleEscape (117 : Byte) = true) := by decide
  simp only [Bool.and_eq_true] at hh
  obtain ⟨⟨⟨e1, e2⟩, e3⟩, e4⟩ := hh
  rw [scanString_inString, if_neg n1, if_pos n2, scanString_esc, if_neg h117, if_pos n3,
    scanString_escU, if_pos e1, scanString_escU, if_pos e2, scanString_escU, if_pos e3,
    scanString_escU, if_pos e4]
  cases scanString .inString X with
  | none => rfl
  | some wr => rfl

theorem isHexDigit_hexLower_fin : ∀ v : Fin 16, isHexDigit (hexLower v.val) = true := by decide

theorem isHexDigit_hexLower (v : Nat) : isHexDigit (hexLower v) = true := by
  have h := isHexDigit_hexLower_fin ⟨v % 16, Nat.mod_lt _ (by decide)⟩
  simp only [hexLower, Nat.mod_mod] at h ⊢
  exact h

/-- The escape of an ASCII byte outside the safe set, as the scanner sees it:
a two-byte escape, or `\u00` followed by two hexadecimal digits. -/
theorem escapeASCII_shape : ∀ b : Byte,
    (∃ e, escapeASCII b = [92, e] ∧ isSimpleEscape e = true) ∨
    (escapeASCII b = [92, 117, 48, 48, hexLower (b.val >>> 4), hexLower (b.val &&& 0xF)]) := by
  intro b
  unfold escapeASCII
  split_ifs with h1 h2 h3 h4 h5 h6
  · left
    refine ⟨b, rfl, ?_⟩
    have hb := b.isLt
    rcases h1 with h | h
    · have : b = 92 := Fin.ext h
      rw [this]; decide
    · have : b = 34 := Fin.ext h
      rw [this]; decide
  · exact Or.inl ⟨98, rfl, by decide⟩
  · exact Or.inl ⟨102, rfl, by decide⟩
  · exact Or.inl ⟨110, rfl, by decide⟩
  · exact Or.inl ⟨114, rfl, by decide⟩
  · exact Or.inl ⟨116, rfl, by decide⟩
  · exact Or.inr rfl

theorem scanString_escapeASCII (b : Byte) (X : GoString) :
    scanString .inString (escapeASCII b ++ X) =
      (scanString .inString X).map fun p => (escapeASCII b ++ p.1, p.2) := by
  rcases escapeASCII_shape b with ⟨e, he, hs⟩ | he
  · rw [he]
    exact scanString_simple e X hs
  · rw [he]
    refine scanString_u4 _ _ _ _ X ?_
    rw [isHexDigit_hexLower, isHexDigit_hexLower]
    decide

theorem htmlSafeSet_plain (b : Byte) (h : htmlSafeSet b = true) :
    b.val ≠ 34 ∧ b.val ≠ 92 ∧ ¬ b.val < 32 := by
  simp only [htmlSafeSet, Bool.and_eq_true, decide_eq_true_eq, bne_iff_ne, ne_eq] at h
  omega

theorem str_ufffd : str "\\ufffd" = [92, 117, 102, 102, 102, 100] := by decide

theorem str_u202 : str "\\u202" = [92, 117, 50, 48, 50] := by decide

/-- The scanner, started after the opening quote on what `appendString` wrote,
stops at the closing quote with the whole body of the literal. -/
theorem scanString_appendStringLoop : ∀ (fuel : Nat) (s rest : GoString),
    scanString .inString (appendStringLoop fuel s ++ 34 :: rest) =
      some (appendStringLoop fuel s, rest) := by
  intro fuel
  have hq : ∀ rest : GoString, scanString .inString (34 :: rest) = some ([], rest) := by
    intro rest
    have n1 : (34 : Byte).val = 34 := by decide
    rw [scanString_inString, if_pos n1]
  induction fuel with
  | zero =>
    intro s rest
    rw [appendStringLoop, List.nil_append, hq]
  | succ fuel ih =>
    intro s rest
    cases s with
    | nil => rw [appendStringLoop, List.nil_append, hq]
    | cons b t =>
      rw [appendStringLoop]
      by_cases hb : b.val < 0x80
      · rw [if_pos hb]
        by_cases hsafe : htmlSafeSet b = true
        · rw [if_pos hsafe]
          have hp := htmlSafeSet_plain b hsafe
          rw [List.append_assoc, List.singleton_append, scanString_plain b _ hp.1 hp.2.1 hp.2.2,
            ih]
          rfl
        · rw [if_neg hsafe, List.append_assoc, scanString_escapeASCII, ih]
          rfl
      · rw [if_neg hb]
        dsimp only
        by_cases herr : (decodeRune (b :: t)).1 = RuneError ∧ (decodeRune (b :: t)).2 = 1
        · rw [if_pos herr, str_ufffd, List.append_assoc]
          simp only [List.cons_append, List.nil_append]
          rw [scanString_u4 _ _ _ _ _ (by decide), ih]
          rfl
        · rw [if_neg herr]
          by_cases hls : (decodeRune (b :: t)).1 = 0x2028 ∨ (decodeRune (b :: t)).1 = 0x2029
          · rw [if_pos hls, str_u202, List.append_assoc, List.append_assoc]
            simp only [List.cons_append, List.nil_append]
            rw [scanString_u4 _ _ _ _ _ (by rw [isHexDigit_hexLower]; decide), ih]
            rfl
          · rw [if_neg hls, List.append_assoc, scanString_plain_append _ _ ?_, ih]
            · rfl
            · intro c hc
              have h80 := ((decodeRune_valid b t herr).2.2.2.2 (by omega)).2 c hc
              omega

/-! ## Unquoting what the encoder writes -/

theorem unquoteLoop_succ (fuel : Nat) (c : Byte) (rest : GoString) :
    unquoteLoop (fuel + 1) (c :: rest) =
      if c.val = 92 then
        match rest with
        | [] => none
        | e :: rest1 =>
          if e.val = 117 then
            match getu4 (c :: rest) with
            | none => none
            | some rr =>
              let rest2 := rest1.drop 4
              if 0xD800 ≤ rr ∧ rr < 0xE000 then
                match getu4 rest2 with
                | some rr1 =>
                  if utf16DecodeRune rr rr1 ≠ RuneError then
                    (unquoteLoop fuel (rest2.drop 6)).map fun t =>
                      encodeRune (utf16DecodeRune rr rr1) ++ t
                  else (unquoteLoop fuel rest2).map fun t => encodeRune RuneError ++ t
                | none => (unquoteLoop fuel rest2).map fun t => encodeRune RuneError ++ t
              else (unquoteLoop fuel rest2).map fun t => encodeRune rr ++ t
          else
            match simpleEscape e with
            | none => none
            | some b => (unquoteLoop fuel rest1).map fun t => b :: t
      else if c.val = 34 ∨ c.val < 32 then none
      else if c.val < 0x80 then (unquoteLoop fuel rest).map fun t => c :: t
      else
        let rs := decodeRune (c :: rest)
        (unquoteLoop fuel ((c :: rest).drop rs.2)).map fun t => encodeRune rs.1 ++ t := by
  rfl

theorem unquoteLoop_nil (fuel : Nat) : unquoteLoop fuel [] = some [] := by
  cases fuel <;> rfl

theorem appendStringLoop_nil (fuel : Nat) : appendStringLoop fuel [] = [] := by
  cases fuel <;> rfl

theorem unquoteLoop_ascii (fuel : Nat) (b : Byte) (Y : GoString) (h1 : b.val ≠ 34)
    (h2 : b.val ≠ 92) (h3 : ¬ b.val < 32) (h4 : b.val < 0x80) :
    unquoteLoop (fuel + 1) (b :: Y) = (unquoteLoop fuel Y).map fun t => b :: t := by
  rw [unquoteLoop_succ, if_neg h2, if_neg (by omega), if_pos h4]

theorem unquoteLoop_simple (fuel : Nat) (e b : Byte) (Y : GoString) (he : e.val ≠ 117)
    (hs : simpleEscape e = some b) :
    unquoteLoop (fuel + 1) (92 :: e :: Y) = (unquoteLoop fuel Y).map fun t => b :: t := by
  have n2 : (92 : Byte).val = 92 := by decide
  rw [unquoteLoop_succ, if_pos n2]
  simp only
  rw [if_neg he, hs]

theorem getu4_six (b1 b2 h1 h2 h3 h4 : Byte) (Y : GoString) :
    getu4 (b1 :: b2 :: h1 :: h2 :: h3 :: h4 :: Y) = getu4 [b1, b2, h1, h2, h3, h4] := rfl

theorem unquoteLoop_u4 (fuel : Nat) (h1 h2 h3 h4 : Byte) (Y : GoString) (rr : Nat)
    (hg : getu4 [92, 117, h1, h2, h3, h4] = some rr) (hns : ¬ (0xD800 ≤ rr ∧ rr < 0xE000)) :
    unquoteLoop (fuel + 1) (92 :: 117 :: h1 :: h2 :: h3 :: h4 :: Y) =
      (unquoteLoop fuel Y).map fun t => encodeRune rr ++ t := by
  have n2 : (92 : Byte).val = 92 := by decide
  have n3 : (117 : Byte).val = 117 := by decide
  rw [unquoteLoop_succ, if_pos n2]
  simp only
  rw [if_pos n3, getu4_six, hg]
  simp only
  rw [if_neg hns]
  rfl

/-- The escape the encoder writes for an ASCII byte outside the safe set, as
the decoder reads it back. -/
theorem escapeASCII_unquote : ∀ b : Byte, b.val < 0x80 →
    (escapeASCII b = [92, (escapeASCII b).getD 1 0] ∧ ((escapeASCII b).getD 1 0).val ≠ 117 ∧
      simpleEscape ((escapeASCII b).getD 1 0) = some b) ∨
    (escapeASCII b = [92, 117, 48, 48, hexLower (b.val >>> 4), hexLower (b.val &&& 0xF)] ∧
      getu4 [92, 117, 48, 48, hexLower (b.val >>> 4), hexLower (b.val &&& 0xF)] =
        some b.val) := by
  decide

theorem unquoteLoop_escapeASCII (fuel : Nat) (b : Byte) (Y : GoString) (hb : b.val < 0x80) :
    unquoteLoop (fuel + 1) (escapeASCII b ++ Y) = (unquoteLoop fuel Y).map fun t => b :: t := by
  rcases escapeASCII_unquote b hb with ⟨h1, h2, h3⟩ | ⟨h1, h2⟩
  · rw [h1]
    exact unquoteLoop_simple fuel _ b Y h2 h3
  · rw [h1]
    simp only [List.cons_append, List.nil_append]
    rw [unquoteLoop_u4 fuel _ _ _ _ Y b.val h2 (by omega), encodeRune_one _ (by omega)]
    have hbb : byteOf b.val = b := Fin.ext (by simp only [byteOf]; omega)
    rw [hbb]
    rfl

theorem unquoteLoop_rune (fuel : Nat) (b : Byte) (t Y : GoString) (hb : ¬ b.val < 0x80)
    (hv : ¬ ((decodeRune (b :: t)).1 = RuneError ∧ (decodeRune (b :: t)).2 = 1)) :
    unquoteLoop (fuel + 1) ((b :: t).take (decodeRune (b :: t)).2 ++ Y) =
      (unquoteLoop fuel Y).map fun u => (b :: t).take (decodeRune (b :: t)).2 ++ u := by
  obtain ⟨h1, h2, h3, h4, h5⟩ := decodeRune_valid b t hv
  obtain ⟨k, hk⟩ : ∃ k, (decodeRune (b :: t)).2 = k + 1 := ⟨_, (Nat.sub_add_cancel h1).symm⟩
  have htake : (b :: t).take (decodeRune (b :: t)).2 = b :: t.take k := by
    rw [hk, List.take_succ_cons]
  have hdec := h4 Y
  have hlen : ((b :: t).take (decodeRune (b :: t)).2).length = (decodeRune (b :: t)).2 :=
    List.length_take_of_le h2
  have hdrop : ((b :: t).take (decodeRune (b :: t)).2 ++ Y).drop (decodeRune (b :: t)).2 = Y := by
    rw [List.drop_append_of_le_length (by omega), List.drop_of_length_le (by omega),
      List.nil_append]
  rw [htake] at hdec hdrop ⊢
  rw [List.cons_append] at hdec hdrop ⊢
  rw [unquoteLoop_succ, if_neg (by omega), if_neg (by omega), if_neg hb]
  simp only
  rw [hdec, hdrop, h3, htake]

theorem str_u2028 : getu4 [92, 117, 50, 48, 50, hexLower (0x2028 &&& 0xF)] = some 0x2028 := by
  decide

theorem str_u2029 : getu4 [92, 117, 50, 48, 50, hexLower (0x2029 &&& 0xF)] = some 0x2029 := by
  decide

/-- Unquoting what the encoder wrote for a valid UTF-8 string gives the string
back, whatever fuel is used, as long as it is enough. -/
theorem unquoteLoop_appendStringLoop : ∀ (n : Nat) (s : GoString), s.length ≤ n →
    ∀ f1 f2 f3 : Nat, s.length ≤ f1 → s.length ≤ f2 → (appendStringLoop f2 s).length ≤ f3 →
      validString f1 s = true → unquoteLoop f3 (appendStringLoop f2 s) = some s := by
  intro n
  induction n with
  | zero =>
    intro s hs f1 f2 f3 _ _ _ _
    have : s = [] := List.length_eq_zero.mp (Nat.le_zero.mp hs)
    rw [this, appendStringLoop_nil, unquoteLoop_nil]
  | succ n ih =>
    intro s hs f1 f2 f3 h1 h2 h3 hv
    cases s with
    | nil => rw [appendStringLoop_nil, unquoteLoop_nil]
    | cons b t =>
      simp only [List.length_cons] at hs h1 h2
      obtain ⟨g1, rfl⟩ : ∃ g, f1 = g + 1 := ⟨f1 - 1, by omega⟩
      obtain ⟨g2, rfl⟩ : ∃ g, f2 = g + 1 := ⟨f2 - 1, by omega⟩
      rw [validString] at hv
      rw [appendStringLoop] at h3 ⊢
      by_cases hb : b.val < 0x80
      · -- one ASCII byte
        have hd : decodeRune (b :: t) = (b.val, 1) := by
          simp only [decodeRune]; rw [if_pos hb]
        have hne : ¬ ((decodeRune (b :: t)).1 = RuneError ∧ (decodeRune (b :: t)).2 = 1) := by
          rw [hd]
          intro h
          have h' := h.1
          simp only [RuneError] at h'
          omega
        rw [if_neg hne, hd] at hv
        replace hv : validString g1 t = true := hv
        rw [if_pos hb] at h3 ⊢
        by_cases hsafe : htmlSafeSet b = true
        · rw [if_pos hsafe] at h3 ⊢
          have hp := htmlSafeSet_plain b hsafe
          simp only [List.singleton_append, List.length_cons] at h3 ⊢
          obtain ⟨g3, rfl⟩ : ∃ g, f3 = g + 1 := ⟨f3 - 1, by omega⟩
          rw [unquoteLoop_ascii g3 b _ hp.1 hp.2.1 hp.2.2 hb,
            ih t (by omega) g1 g2 g3 (by omega) (by omega) (by omega) hv]
          rfl
        · rw [if_neg hsafe] at h3 ⊢
          have hpos : 0 < (escapeASCII b).length := by
            rcases escapeASCII_shape b with ⟨e, he, _⟩ | he <;> rw [he] <;> simp
          rw [List.length_append] at h3
          obtain ⟨g3, rfl⟩ : ∃ g, f3 = g + 1 := ⟨f3 - 1, by omega⟩
          rw [unquoteLoop_escapeASCII g3 b _ hb,
            ih t (by omega) g1 g2 g3 (by omega) (by omega) (by omega) hv]
          rfl
      · -- a rune of several bytes
        rw [if_neg hb] at h3 ⊢
        dsimp only at h3 ⊢
        by_cases herr : (decodeRune (b :: t)).1 = RuneError ∧ (decodeRune (b :: t)).2 = 1
        · rw [if_pos herr] at hv
          cases hv
        · rw [if_neg herr] at hv h3 ⊢
          obtain ⟨k1, k2, k3, k4, k5⟩ := decodeRune_valid b t herr
          have hdl : ((b :: t).drop (decodeRune (b :: t)).2).length ≤ n := by
            rw [List.length_drop, List.length_cons]; omega
          have hrest := fun f3' (hf : (appendStringLoop g2
              ((b :: t).drop (decodeRune (b :: t)).2)).length ≤ f3') =>
            ih ((b :: t).drop (decodeRune (b :: t)).2) hdl g1 g2 f3'
              (by rw [List.length_drop, List.length_cons]; omega)
              (by rw [List.length_drop, List.length_cons]; omega) hf hv
          by_cases hls : (decodeRune (b :: t)).1 = 0x2028 ∨ (decodeRune (b :: t)).1 = 0x2029
          · rw [if_pos hls] at h3 ⊢
            rw [str_u202] at h3 ⊢
            simp only [List.cons_append, List.nil_append, List.length_cons] at h3 ⊢
            obtain ⟨g3, rfl⟩ : ∃ g, f3 = g + 1 := ⟨f3 - 1, by omega⟩
            have hg : getu4 [92, 117, 50, 48, 50, hexLower ((decodeRune (b :: t)).1 &&& 0xF)] =
                some (decodeRune (b :: t)).1 := by
              rcases hls with h | h <;> rw [h]
              · exact str_u2028
              · exact str_u2029
            rw [unquoteLoop_u4 g3 _ _ _ _ _ _ hg (by rcases hls with h | h <;> rw [h] <;> decide),
              hrest g3 (by omega), k3]
            simp only [Option.map_some', List.take_append_drop]
          · rw [if_neg hls] at h3 ⊢
            rw [List.length_append, List.length_take_of_le k2] at h3
            obtain ⟨g3, rfl⟩ : ∃ g, f3 = g + 1 := ⟨f3 - 1, by omega⟩
            rw [unquoteLoop_rune g3 b t _ hb herr, hrest g3 (by omega)]
            simp only [Option.map_some', List.take_append_drop]

/-- The decoder's `unquoteBytes` gives back a valid UTF-8 string from the body
of the literal the encoder wrote for it. -/
theorem unquote_appendStringLoop (s : GoString) (hv : ValidUTF8 s) :
    unquote (appendStringLoop s.length s) = some s :=
  unquoteLoop_appendStringLoop s.length s (Nat.le_refl _) s.length s.length _ (Nat.le_refl _)
    (Nat.le_refl _) (Nat.le_refl _) hv

/-! ## Scanning and decoding what `json.Marshal` writes for a `Request` -/

theorem skipSpace_cons (c : Byte) (rest : GoString) (h : isSpace c = false) :
    skipSpace (c :: rest) = c :: rest := by
  rw [skipSpace, h]
  rfl

theorem parseValue_string (fuel depth : Nat) (body X : GoString)
    (h : scanString .inString (body ++ 34 :: X) = some (body, X)) :
    parseValue (fuel + 1) depth (34 :: (body ++ 34 :: X)) = some (.string body, X) := by
  have n1 : ¬ ((34 : Byte).val = 123) := by decide
  have n2 : ¬ ((34 : Byte).val = 91) := by decide
  have n3 : (34 : Byte).val = 34 := by decide
  rw [parseValue, if_neg n1, if_neg n2, if_pos n3, h]

/-- The scanner on one member written by `structEncode`, followed by the text
for the remaining fields. -/
theorem parseMembers_structEncode : ∀ (fields : List (GoString × GoString))
    (name v rest : GoString) (fuel depth : Nat),
    (∀ b ∈ name, b.val ≠ 34 ∧ b.val ≠ 92 ∧ ¬ b.val < 32) →
    (∀ f ∈ fields, ∀ b ∈ f.1, b.val ≠ 34 ∧ b.val ≠ 92 ∧ ¬ b.val < 32) →
    (membersOf fields).length + 2 ≤ fuel →
    parseMembers fuel depth
        (34 :: (name ++ 34 :: 58 :: (appendString v ++ (structEncode fields 44 ++ rest)))) =
      some ((name, .string (appendStringLoop v.length v)) :: membersOf fields, rest) := by
  intro fields
  induction fields with
  | nil =>
    intro name v rest fuel depth hname _ hfuel
    obtain ⟨g, rfl⟩ : ∃ g, fuel = g + 2 := ⟨fuel - 2, by omega⟩
    have hq : scanString .inString (34 :: 58 :: (appendString v ++ (structEncode [] 44 ++ rest))) =
        some ([], 58 :: (appendString v ++ (structEncode [] 44 ++ rest))) := by
      rw [scanString_inString, if_pos (by decide)]
    have n1 : ¬ ((34 : Byte).val ≠ 34) := by decide
    have n2 : ¬ ((58 : Byte).val ≠ 58) := by decide
    rw [parseMembers, if_neg n1, scanString_plain_append name _ hname, hq]
    simp only [Option.map_some', List.append_nil]
    rw [skipSpace_cons 58 _ (by decide)]
    simp only
    rw [if_neg n2]
    have hv : appendString v ++ (structEncode [] 44 ++ rest) =
        34 :: (appendStringLoop v.length v ++ 34 :: (125 :: rest)) := by
      simp only [appendString, structEncode, List.cons_append, List.nil_append, List.append_assoc]
      rfl
    rw [hv, skipSpace_cons 34 _ (by decide),
      parseValue_string g depth _ _ (scanString_appendStringLoop _ _ _)]
    simp only
    rw [skipSpace_cons 125 _ (by decide)]
    simp only
    rw [if_neg (by decide), if_pos (by decide)]
    rfl
  | cons f fields ih =>
    intro name v rest fuel depth hname hfields hfuel
    obtain ⟨n', v'⟩ := f
    by_cases hv' : v'.length = 0
    · have hs : structEncode ((n', v') :: fields) 44 = structEncode fields 44 := by
        rw [structEncode, if_pos hv']
      have hm : membersOf ((n', v') :: fields) = membersOf fields := by
        simp only [membersOf, List.filter_cons, hv', ne_eq, not_true_eq_false, decide_False,
          Bool.false_eq_true, if_false]
      rw [hs, hm]
      rw [hm] at hfuel
      exact ih name v rest fuel depth hname
        (fun f hf => hfields f (List.mem_cons_of_mem _ hf)) hfuel
    · have hs : structEncode ((n', v') :: fields) 44 =
          44 :: 34 :: (n' ++ 34 :: 58 :: (appendString v' ++ structEncode fields 44)) := by
        rw [structEncode, if_neg hv']
        simp only [List.cons_append, List.nil_append, List.append_assoc, List.singleton_append]
      have hm : membersOf ((n', v') :: fields) =
          (n', .string (appendStringLoop v'.length v')) :: membersOf fields := by
        simp only [membersOf, List.filter_cons, hv', ne_eq, not_false_eq_true, decide_True,
          if_true, List.map_cons]
      rw [hs, hm]
      rw [hm] at hfuel
      simp only [List.length_cons] at hfuel
      obtain ⟨g, rfl⟩ : ∃ g, fuel = g + 2 := ⟨fuel - 2, by omega⟩
      have hq : ∀ Y : GoString, scanString .inString (34 :: Y) = some ([], Y) := by
        intro Y
        rw [scanString_inString, if_pos (by decide)]
      have n1 : ¬ ((34 : Byte).val ≠ 34) := by decide
      have n2 : ¬ ((58 : Byte).val ≠ 58) := by decide
      rw [parseMembers, if_neg n1, scanString_plain_append name _ hname, hq]
      simp only [Option.map_some', List.append_nil]
      rw [skipSpace_cons 58 _ (by decide)]
      simp only
      rw [if_neg n2]
      have hv : appendString v ++ (44 :: 34 :: (n' ++ 34 :: 58 ::
            (appendString v' ++ structEncode fields 44)) ++ rest) =
          34 :: (appendStringLoop v.length v ++ 34 :: (44 :: 34 :: (n' ++ 34 :: 58 ::
            (appendString v' ++ (structEncode fields 44 ++ rest))))) := by
        simp only [appendString, List.cons_append, List.nil_append, List.append_assoc]
      rw [hv, skipSpace_cons 34 _ (by decide),
        parseValue_string g depth _ _ (scanString_appendStringLoop _ _ _)]
      simp only
      rw [skipSpace_cons 44 _ (by decide)]
      simp only
      rw [if_pos (by decide), skipSpace_cons 34 _ (by decide),
        ih n' v' rest (g + 1) depth (hfields (n', v') (List.mem_cons_self _ _))
          (fun f hf => hfields f (List.mem_cons_of_mem _ hf)) (by omega)]

theorem structEncode_length : ∀ (fields : List (GoString × GoString)) (next : Byte),
    (membersOf fields).length + 1 ≤ (structEncode fields next).length := by
  intro fields
  induction fields with
  | nil =>
    intro next
    rw [structEncode]
    split_ifs <;> simp [membersOf]
  | cons f fields ih =>
    intro next
    obtain ⟨n', v'⟩ := f
    by_cases hv' : v'.length = 0
    · have hm : membersOf ((n', v') :: fields) = membersOf fields := by
        simp only [membersOf, List.filter_cons, hv', ne_eq, not_true_eq_false, decide_False,
          Bool.false_eq_true, if_false]
      rw [structEncode, if_pos hv', hm]
      exact ih next
    · have hm : membersOf ((n', v') :: fields) =
          (n', .string (appendStringLoop v'.length v')) :: membersOf fields := by
        simp only [membersOf, List.filter_cons, hv', ne_eq, not_false_eq_true, decide_True,
          if_true, List.map_cons]
      rw [structEncode, if_neg hv', hm]
      have := ih 44
      simp only [List.length_append, List.length_cons, List.length_nil] at this ⊢
      omega

/-- Decoding the text `structEncode` writes for a list of fields with plain
names is decoding the members of the fields that are not empty. -/
theorem jsonUnmarshalRequest_structEncode : ∀ (fields : List (GoString × GoString))
    (target : Request),
    (∀ f ∈ fields, ∀ b ∈ f.1, b.val ≠ 34 ∧ b.val ≠ 92 ∧ ¬ b.val < 32) →
    jsonUnmarshalRequest (structEncode fields 123) target =
      (membersOf fields).foldl decodeMember (target, none) := by
  intro fields
  induction fields with
  | nil =>
    intro target _
    rfl
  | cons f fields ih =>
    intro target hfields
    obtain ⟨n', v'⟩ := f
    by_cases hv' : v'.length = 0
    · have hm : membersOf ((n', v') :: fields) = membersOf fields := by
        simp only [membersOf, List.filter_cons, hv', ne_eq, not_true_eq_false, decide_False,
          Bool.false_eq_true, if_false]
      rw [structEncode, if_pos hv', hm]
      exact ih target (fun f hf => hfields f (List.mem_cons_of_mem _ hf))
    · have hm : membersOf ((n', v') :: fields) =
          (n', .string (appendStringLoop v'.length v')) :: membersOf fields := by
        simp only [membersOf, List.filter_cons, hv', ne_eq, not_false_eq_true, decide_True,
          if_true, List.map_cons]
      have hs : structEncode ((n', v') :: fields) 123 =
          123 :: 34 :: (n' ++ 34 :: 58 :: (appendString v' ++ (structEncode fields 44 ++ []))) := by
        rw [structEncode, if_neg hv']
        simp only [List.cons_append, List.nil_append, List.append_assoc, List.singleton_append,
          List.append_nil]
      have hlen : (membersOf fields).length + 2 ≤
          (structEncode ((n', v') :: fields) 123).length := by
        rw [hs]
        have := structEncode_length fields 44
        simp only [List.length_append, List.length_cons, List.length_nil]
        omega
      have hp := parseMembers_structEncode fields n' v' [] _ 1
        (hfields (n', v') (List.mem_cons_self _ _))
        (fun f hf => hfields f (List.mem_cons_of_mem _ hf)) hlen
      rw [hm]
      rw [hs] at hp ⊢
      rw [jsonUnmarshalRequest, skipSpace_cons 123 _ (by decide)]
      simp only
      rw [if_pos (by decide), skipSpace_cons 34 _ (by decide)]
      simp only
      rw [if_neg (by decide), hp]
      simp only
      have hsk : skipSpace [] = [] := rfl
      rw [if_pos hsk]

theorem foldl_membersOf : ∀ (fields : List (GoString × GoString)) (st : Request × Option GoError),
    (membersOf fields).foldl decodeMember st = fields.foldl stepField st := by
  intro fields
  induction fields with
  | nil => intro st; rfl
  | cons f fields ih =>
    intro st
    by_cases hv : f.2.length = 0
    · have hm : membersOf (f :: fields) = membersOf fields := by
        simp only [membersOf, List.filter_cons, hv, ne_eq, not_true_eq_false, decide_False,
          Bool.false_eq_true, if_false]
      rw [hm, List.foldl_cons, ih]
      congr 1
      rw [stepField, if_neg (not_not.mpr hv)]
    · have hm : membersOf (f :: fields) =
          (f.1, .string (appendStringLoop f.2.length f.2)) :: membersOf fields := by
        simp only [membersOf, List.filter_cons, hv, ne_eq, not_false_eq_true, decide_True,
          if_true, List.map_cons]
      rw [hm, List.foldl_cons, List.foldl_cons, ih]
      congr 1
      rw [stepField, if_pos hv]

/-- The decoder on the member written for one field: the field is set to the
value, also when the field is empty and no member was written, provided the
field of the target is empty then. -/
theorem stepField_eq (i : Nat) (name v : GoString) (hname : unquote name = some name)
    (hfind : findField name = some i) (hv : ValidUTF8 v) (req : Request)
    (hreq : v = [] → req.setField i [] = req) :
    stepField (req, none) (name, v) = (req.setField i v, none) := by
  by_cases hl : v.length = 0
  · have hnil : v = [] := List.length_eq_zero.mp hl
    rw [stepField, if_neg (not_not.mpr hl), hnil, hreq hnil]
  · rw [stepField, if_pos hl]
    simp only [decodeMember]
    rw [hname]
    simp only
    rw [hfind]
    simp only
    rw [unquote_appendStringLoop v hv]

theorem jsonFields_plain (r : Request) :
    ∀ f ∈ r.jsonFields, ∀ b ∈ f.1, b.val ≠ 34 ∧ b.val ≠ 92 ∧ ¬ b.val < 32 := by
  intro f hf
  simp only [Request.jsonFields, List.mem_cons, List.mem_singleton, List.not_mem_nil,
    or_false] at hf
  rcases hf with rfl | rfl | rfl | rfl | rfl | rfl | rfl <;> dsimp only <;> decide

theorem fieldNames_decode :
    (unquote (str "userId") = some (str "userId") ∧ findField (str "userId") = some 0) ∧
    (unquote (str "behaviorProfile") = some (str "behaviorProfile") ∧
      findField (str "behaviorProfile") = some 1) ∧
    (unquote (str "hostAddress") = some (str "hostAddress") ∧
      findField (str "hostAddress") = some 2) ∧
    (unquote (str "userAgent") = some (str "userAgent") ∧ findField (str "userAgent") = some 3) ∧
    (unquote (str "fieldName") = some (str "fieldName") ∧ findField (str "fieldName") = some 4) ∧
    (unquote (str "fieldType") = some (str "fieldType") ∧ findField (str "fieldType") = some 5) ∧
    (unquote (str "deviceType") = some (str "deviceType") ∧
      findField (str "deviceType") = some 6) := by
  decide

/-- C7, amended: for every Request whose seven fields are valid UTF-8,
`json.Marshal` succeeds, and decoding the text it writes (the keys userId,
behaviorProfile, hostAddress, userAgent, fieldName, fieldType and deviceType,
each left out when its field is empty) into a zero Request gives a nil error
and a Request equal to the original field for field. -/
theorem C7_roundtrip_valid_utf8 (r : Request) (hv : r.ValidUTF8) :
    (jsonMarshal r).2 = none ∧
    jsonUnmarshalRequest (jsonMarshal r).1 Request.zero = (r, none) := by
  refine ⟨rfl, ?_⟩
  obtain ⟨v0, v1, v2, v3, v4, v5, v6⟩ := hv
  obtain ⟨⟨u0, f0⟩, ⟨u1, f1⟩, ⟨u2, f2⟩, ⟨u3, f3⟩, ⟨u4, f4⟩, ⟨u5, f5⟩, ⟨u6, f6⟩⟩ :=
    fieldNames_decode
  have hm : (jsonMarshal r).1 = structEncode r.jsonFields 123 := rfl
  rw [hm, jsonUnmarshalRequest_structEncode _ _ (jsonFields_plain r), foldl_membersOf]
  simp only [Request.jsonFields, List.foldl_cons, List.foldl_nil]
  rw [stepField_eq 0 _ _ u0 f0 v0 _ (fun _ => rfl),
    stepField_eq 1 _ _ u1 f1 v1 _ (fun _ => rfl),
    stepField_eq 2 _ _ u2 f2 v2 _ (fun _ => rfl),
    stepField_eq 3 _ _ u3 f3 v3 _ (fun _ => rfl),
    stepField_eq 4 _ _ u4 f4 v4 _ (fun _ => rfl),
    stepField_eq 5 _ _ u5 f5 v5 _ (fun _ => rfl),
    stepField_eq 6 _ _ u6 f6 v6 _ (fun _ => rfl)]
  rfl

/-- Witness of C7: a request with escapes and characters outside ASCII. -/
theorem C7_witness :
    Request.ValidUTF8 ⟨str "user", str "a\"b<c>\n", str "10.0.0.1", str "Ünï €", [], [], []⟩ ∧
    (jsonMarshal ⟨str "user", str "a\"b<c>\n", str "10.0.0.1", str "Ünï €", [], [], []⟩).1 =
      str ("\x7b\"userId\":\"user\",\"behaviorProfile\":\"a\\\"b\\u003cc\\u003e\\n\"," ++
        "\"hostAddress\":\"10.0.0.1\",\"userAgent\":\"Ünï €\"\x7d") ∧
    jsonUnmarshalRequest
        (jsonMarshal ⟨str "user", str "a\"b<c>\n", str "10.0.0.1", str "Ünï €", [], [], []⟩).1
        Request.zero =
      (⟨str "user", str "a\"b<c>\n", str "10.0.0.1", str "Ünï €", [], [], []⟩, none) :=
  ⟨by decide, by decide,
    (C7_roundtrip_valid_utf8 ⟨str "user", str "a\"b<c>\n", str "10.0.0.1", str "Ünï €", [], [],
      []⟩ (by decide)).2⟩

/-- Counterexample to C7: a UserID holding the single byte `0xff`, which is
not valid UTF-8, is serialised as `\ufffd` and decoded as the three bytes of
U+FFFD, so the decoded Request differs from the original. -/
theorem C7_counterexample :
    (jsonMarshal ⟨[0xff], [], [], [], [], [], []⟩).1 =
      str "\x7b\"userId\":\"\\ufffd\"\x7d" ∧
    jsonUnmarshalRequest (jsonMarshal ⟨[0xff], [], [], [], [], [], []⟩).1 Request.zero =
      (⟨[0xEF, 0xBF, 0xBD], [], [], [], [], [], []⟩, none) ∧
    (jsonUnmarshalRequest (jsonMarshal ⟨[0xff], [], [], [], [], [], []⟩).1 Request.zero).1 ≠
      ⟨[0xff], [], [], [], [], [], []⟩ := by
  refine ⟨by decide, by decide, by decide⟩

end Behavebio
